import Mathlib

/-!
Verification of the model lifecycle and inference pipeline of the repository
(`electron/modelManager.cjs`, `electron/inferenceEngine.cjs`,
`src/native/llm_inference.cpp.bak3`).

The source is shallowly embedded: JavaScript / C++ functions become Lean
functions, the filesystem and the native llama library become explicit state
and oracle parameters, and floating point sampling arithmetic is embedded
over the exact rationals.
-/

/-! ## Native sampling helpers (`llm_inference.cpp.bak3`)

`apply_top_p` builds the list of `(probability, index)` pairs, sorts it with
`std::sort(..., std::greater<>())` (descending lexicographic order on pairs),
accumulates probability mass and zeroes every original entry strictly after
the token whose cumulative mass first exceeds `top_p`. -/

/-- Pair the entries of a logit vector with their original indices,
mirroring the `probs.push_back({logits[i], i})` loop. -/
def withIdx : List ℚ → Nat → List (ℚ × Nat)
  | [], _ => []
  | x :: rest, i => (x, i) :: withIdx rest (i + 1)

/-- `std::greater<>` on `std::pair<float,int>`: strict descending
lexicographic comparison. -/
def pairGT (a b : ℚ × Nat) : Bool :=
  decide (b.1 < a.1 ∨ (a.1 = b.1 ∧ b.2 < a.2))

/-- Insert one pair into a list that is already in descending `pairGT` order. -/
def insertDesc (x : ℚ × Nat) : List (ℚ × Nat) → List (ℚ × Nat)
  | [] => [x]
  | y :: ys => if pairGT x y then x :: y :: ys else y :: insertDesc x ys

/-- Sort `(probability, index)` pairs in the strict total descending order
used by `std::sort(probs.begin(), probs.end(), std::greater<>())`. -/
def sortPairsDesc (l : List (ℚ × Nat)) : List (ℚ × Nat) := l.foldr insertDesc []

/-- The cumulative-mass loop of `apply_top_p`: walk the sorted pairs keeping a
running sum; once the sum first exceeds `top_p`, return the original indices
of every later pair (those are the entries the C++ loop zeroes). -/
def zeroAfterCross : List (ℚ × Nat) → ℚ → ℚ → List Nat
  | [], _, _ => []
  | (p, _idx) :: rest, cum, topP =>
    if topP < cum + p then rest.map Prod.snd
    else zeroAfterCross rest (cum + p) topP

/-- `LLMInference::apply_top_p`: zero out every probability entry whose sorted
position lies strictly after the token at which cumulative mass first exceeds
`top_p`. -/
def apply_top_p (logits : List ℚ) (topP : ℚ) : List ℚ :=
  let pairs := withIdx logits 0
  let zs := zeroAfterCross (sortPairsDesc pairs) 0 topP
  pairs.map (fun pi => if pi.2 ∈ zs then 0 else pi.1)

/-- The running-maximum initialisation of the softmax and greedy loops:
`max_logit = logits[0]` followed by `if (logits[i] > max_logit) ...`. -/
def maxLogit : List ℚ → ℚ
  | [] => 0
  | x :: rest => rest.foldl (fun m y => if m < y then y else m) x

/-- `LLMInference::apply_softmax`, with the (transcendental) `expf` passed in
as an explicit function parameter `ex`: subtract the running maximum,
exponentiate, and divide by the sum. -/
def apply_softmax (ex : ℚ → ℚ) (l : List ℚ) : List ℚ :=
  let m := maxLogit l
  let e := l.map (fun x => ex (x - m))
  let s := e.foldl (· + ·) 0
  e.map (fun x => x / s)

/-- The cdf scan of `LLMInference::sample_token`: accumulate probabilities and
return the first index whose cumulative mass strictly exceeds the drawn `r`. -/
def sampleLoop (r : ℚ) : List ℚ → ℚ → Nat → Option Nat
  | [], _, _ => none
  | p :: rest, cdf, i =>
    if r < cdf + p then some i else sampleLoop r rest (cdf + p) (i + 1)

/-- `LLMInference::sample_token`: cdf sampling with the `n_vocab - 1`
fallback when the scan falls off the end. -/
def sample_token (probs : List ℚ) (r : ℚ) : Nat :=
  (sampleLoop r probs 0 0).getD (probs.length - 1)

/-- The greedy arg-max loop of `LLMInference::Generate`
(`new_token = 0; max_logit = logits[0]; for (j = 1; ...)` with a strict
`logits[j] > max_logit` update). -/
def argmaxLoop : List ℚ → Nat → Nat → ℚ → Nat
  | [], _, best, _ => best
  | x :: rest, j, best, m =>
    if m < x then argmaxLoop rest (j + 1) j x else argmaxLoop rest (j + 1) best m

/-- Greedy selection over the raw logits, exactly as in the
`temperature <= 0.0f` branch of `LLMInference::Generate`. -/
def greedyArgmax : List ℚ → Nat
  | [] => 0
  | x :: rest => argmaxLoop rest 1 0 x

/-- One per-step token selection of `LLMInference::Generate`: greedy arg-max
when `temperature ≤ 0`, otherwise temperature scaling, softmax, top-p
truncation, renormalising softmax, and cdf sampling with the drawn value `r`.
`ex` stands for `expf`. -/
def selectToken (ex : ℚ → ℚ) (temperature topP : ℚ) (logits : List ℚ) (r : ℚ) : Nat :=
  if temperature ≤ 0 then greedyArgmax logits
  else
    let probs := logits.map (fun x => x / temperature)
    let probs2 := apply_softmax ex probs
    let probs3 := apply_top_p probs2 topP
    let probs4 := apply_softmax ex probs3
    sample_token probs4 r

/-! ### Correctness of the greedy arg-max loop -/

/-- Full case analysis of `argmaxLoop`: either no element of the remaining
list beats the current maximum `m` and the loop returns `best`, or it returns
`j + k` where `k` is the first position of the remaining list attaining its
maximum, that maximum beating `m`. -/
lemma argmaxLoop_cases (rest : List ℚ) : ∀ (j best : Nat) (m : ℚ),
    (argmaxLoop rest j best m = best ∧ ∀ k, k < rest.length → rest.getD k 0 ≤ m)
  ∨ (∃ k, k < rest.length ∧ argmaxLoop rest j best m = j + k ∧ m < rest.getD k 0 ∧
      (∀ t, t < rest.length → rest.getD t 0 ≤ rest.getD k 0) ∧
      (∀ t, t < k → rest.getD t 0 < rest.getD k 0)) := by
  induction rest with
  | nil =>
    intro j best m
    left
    refine ⟨rfl, ?_⟩
    intro k hk
    simp at hk
  | cons x rest ih =>
    intro j best m
    by_cases hx : m < x
    · right
      have hloop : argmaxLoop (x :: rest) j best m = argmaxLoop rest (j + 1) j x := by
        simp [argmaxLoop, hx]
      rcases ih (j + 1) j x with ⟨heq, hall⟩ | ⟨k, hk, heq, hgt, hmax, hfirst⟩
      · refine ⟨0, by simp, ?_, ?_, ?_, ?_⟩
        · rw [hloop, heq]; omega
        · simpa using hx
        · intro t ht
          match t with
          | 0 => simp
          | Nat.succ s =>
            have hs : s < rest.length := by simpa using ht
            simpa using hall s hs
        · intro t ht
          exact absurd ht (Nat.not_lt_zero t)
      · refine ⟨k + 1, by simpa using hk, ?_, ?_, ?_, ?_⟩
        · rw [hloop, heq]; omega
        · have := lt_trans hx hgt
          simpa using this
        · intro t ht
          match t with
          | 0 => simpa using le_of_lt hgt
          | Nat.succ s =>
            have hs : s < rest.length := by simpa using ht
            simpa using hmax s hs
        · intro t ht
          match t with
          | 0 => simpa using hgt
          | Nat.succ s =>
            have hs : s < k := by omega
            simpa using hfirst s hs
    · have hloop : argmaxLoop (x :: rest) j best m = argmaxLoop rest (j + 1) best m := by
        simp [argmaxLoop, hx]
      rcases ih (j + 1) best m with ⟨heq, hall⟩ | ⟨k, hk, heq, hgt, hmax, hfirst⟩
      · left
        refine ⟨by rw [hloop, heq], ?_⟩
        intro t ht
        match t with
        | 0 => simpa using le_of_not_lt hx
        | Nat.succ s =>
          have hs : s < rest.length := by simpa using ht
          simpa using hall s hs
      · right
        refine ⟨k + 1, by simpa using hk, ?_, ?_, ?_, ?_⟩
        · rw [hloop, heq]; omega
        · simpa using hgt
        · intro t ht
          match t with
          | 0 => simpa using le_of_lt (lt_of_le_of_lt (le_of_not_lt hx) hgt)
          | Nat.succ s =>
            have hs : s < rest.length := by simpa using ht
            simpa using hmax s hs
        · intro t ht
          match t with
          | 0 => simpa using lt_of_le_of_lt (le_of_not_lt hx) hgt
          | Nat.succ s =>
            have hs : s < k := by omega
            simpa using hfirst s hs

/-- The greedy loop returns a valid index that attains the maximum of the
logit vector, and every strictly earlier index holds a strictly smaller
logit (it is the first index attaining the maximum). -/
lemma greedyArgmax_spec (l : List ℚ) (h : l ≠ []) :
    greedyArgmax l < l.length ∧
    (∀ j, j < l.length → l.getD j 0 ≤ l.getD (greedyArgmax l) 0) ∧
    (∀ j, j < greedyArgmax l → l.getD j 0 < l.getD (greedyArgmax l) 0) := by
  match l with
  | [] => exact absurd rfl h
  | x :: rest =>
    have hg : greedyArgmax (x :: rest) = argmaxLoop rest 1 0 x := rfl
    rcases argmaxLoop_cases rest 1 0 x with ⟨heq, hall⟩ | ⟨k, hk, heq, hgt, hmax, hfirst⟩
    · have hzero : greedyArgmax (x :: rest) = 0 := by rw [hg, heq]
      rw [hzero]
      refine ⟨by simp, ?_, ?_⟩
      · intro j hj
        match j with
        | 0 => simp
        | Nat.succ s =>
          have hs : s < rest.length := by simpa using hj
          simpa using hall s hs
      · intro j hj
        exact absurd hj (Nat.not_lt_zero j)
    · have hval : greedyArgmax (x :: rest) = k + 1 := by rw [hg, heq]; omega
      rw [hval]
      refine ⟨by simpa using hk, ?_, ?_⟩
      · intro j hj
        match j with
        | 0 => simpa using le_of_lt hgt
        | Nat.succ s =>
          have hs : s < rest.length := by simpa using hj
          simpa using hmax s hs
      · intro j hj
        match j with
        | 0 => simpa using hgt
        | Nat.succ s =>
          have hs : s < k := by omega
          simpa using hfirst s hs

/-- C4: on the probability vector [0.5, 0.3, 0.1, 0.1] with nucleus threshold
`topP = 0.7`, `apply_top_p` keeps exactly the first two entries of the
descending-sorted distribution and zeroes the remaining two; the cumulative
mass first exceeds 0.7 at sorted index 1, and the original indices zeroed are
exactly those sorted after the crossing token. -/
theorem c4_top_p_truncation :
    apply_top_p [1/2, 3/10, 1/10, 1/10] (7/10) = [1/2, 3/10, 0, 0] ∧
    zeroAfterCross (sortPairsDesc (withIdx [1/2, 3/10, 1/10, 1/10] 0)) 0 (7/10) = [3, 2] := by
  constructor <;>
    norm_num [apply_top_p, withIdx, sortPairsDesc, insertDesc, pairGT, zeroAfterCross]

/-- C5: with `temperature ≤ 0` the per-step token selection of `Generate`
ignores the random draw entirely (two runs on identical logits return the
same token) and equals the greedy arg-max, which is the first index attaining
the maximum of the raw logits. -/
theorem c5_greedy_deterministic (ex : ℚ → ℚ) (temp topP r r' : ℚ) (logits : List ℚ)
    (ht : temp ≤ 0) (hl : logits ≠ []) :
    selectToken ex temp topP logits r = selectToken ex temp topP logits r' ∧
    selectToken ex temp topP logits r = greedyArgmax logits ∧
    greedyArgmax logits < logits.length ∧
    (∀ j, j < logits.length → logits.getD j 0 ≤ logits.getD (greedyArgmax logits) 0) ∧
    (∀ j, j < greedyArgmax logits → logits.getD j 0 < logits.getD (greedyArgmax logits) 0) := by
  have hsel : ∀ q : ℚ, selectToken ex temp topP logits q = greedyArgmax logits := by
    intro q
    simp [selectToken, ht]
  rcases greedyArgmax_spec logits hl with ⟨h1, h2, h3⟩
  exact ⟨by rw [hsel r, hsel r'], hsel r, h1, h2, h3⟩

/-- Witness for C5 at a concrete input: temperature 0, logits [1, 3, 3, 2],
two different random draws. -/
theorem c5_greedy_deterministic_witness :
    (0 : ℚ) ≤ 0 ∧ ([1, 3, 3, 2] : List ℚ) ≠ [] ∧
    (selectToken id 0 1 [1, 3, 3, 2] 0 = selectToken id 0 1 [1, 3, 3, 2] (1/2) ∧
     selectToken id 0 1 [1, 3, 3, 2] 0 = greedyArgmax [1, 3, 3, 2] ∧
     greedyArgmax [1, 3, 3, 2] < ([1, 3, 3, 2] : List ℚ).length ∧
     (∀ j, j < ([1, 3, 3, 2] : List ℚ).length →
        ([1, 3, 3, 2] : List ℚ).getD j 0 ≤ ([1, 3, 3, 2] : List ℚ).getD (greedyArgmax [1, 3, 3, 2]) 0) ∧
     (∀ j, j < greedyArgmax [1, 3, 3, 2] →
        ([1, 3, 3, 2] : List ℚ).getD j 0 < ([1, 3, 3, 2] : List ℚ).getD (greedyArgmax [1, 3, 3, 2]) 0)) :=
  ⟨le_refl 0, by decide,
    c5_greedy_deterministic id 0 1 0 (1/2) [1, 3, 3, 2] (le_refl 0) (by decide)⟩

/-! ## Redirect-following fetch (`modelManager.cjs`, `fetchUrlWithRedirects`)

The network is an oracle mapping a URL to the response the server returns for
it.  A response with status in [300, 400) and a `location` header is followed
recursively with a decremented budget; at budget 0 a further redirect rejects
with "Too many redirects".  The default budget in the source is 5. -/

/-- The response the transport returns for one URL: its status code and the
optional `location` header. -/
structure NetResponse where
  statusCode : Nat
  location : Option String
deriving DecidableEq

/-- `fetchUrlWithRedirects`: follow `location` redirects for 3xx responses,
bounded by the `maxRedirects` budget (default 5 at the call sites). -/
def fetchUrlWithRedirects (net : String → NetResponse) : Nat → String → Except String NetResponse
  | 0, u =>
    let r := net u
    if (300 ≤ r.statusCode ∧ r.statusCode < 400) ∧ r.location.isSome then
      Except.error "Too many redirects"
    else Except.ok r
  | Nat.succ n, u =>
    let r := net u
    if (300 ≤ r.statusCode ∧ r.statusCode < 400) ∧ r.location.isSome then
      fetchUrlWithRedirects net n (r.location.getD "")
    else Except.ok r

/-- One redirect hop: with remaining budget `n + 1`, a 3xx response with a
`location` header is followed with budget `n`. -/
lemma fetchUrlWithRedirects_step (net : String → NetResponse) (n : Nat) (u loc : String)
    (hs : 300 ≤ (net u).statusCode ∧ (net u).statusCode < 400)
    (hl : (net u).location = some loc) :
    fetchUrlWithRedirects net (n + 1) u = fetchUrlWithRedirects net n loc := by
  simp [fetchUrlWithRedirects, hs.1, hs.2, hl]

/-- A non-redirect response resolves unchanged at any budget. -/
lemma fetchUrlWithRedirects_terminal (net : String → NetResponse) (n : Nat) (u : String)
    (h : ¬((300 ≤ (net u).statusCode ∧ (net u).statusCode < 400) ∧ (net u).location.isSome)) :
    fetchUrlWithRedirects net n u = Except.ok (net u) := by
  cases n <;> simp [fetchUrlWithRedirects, h]

/-- A redirect response with exhausted budget rejects. -/
lemma fetchUrlWithRedirects_exhausted (net : String → NetResponse) (u : String)
    (hs : 300 ≤ (net u).statusCode ∧ (net u).statusCode < 400)
    (hl : (net u).location.isSome) :
    fetchUrlWithRedirects net 0 u = Except.error "Too many redirects" := by
  simp [fetchUrlWithRedirects, hs.1, hs.2, hl]

/-- Following a chain of `n` redirect hops consumes exactly `n` units of
budget. -/
lemma fetchUrlWithRedirects_chain (net : String → NetResponse) :
    ∀ (n : Nat) (u : Nat → String),
    (∀ i, i < n → (300 ≤ (net (u i)).statusCode ∧ (net (u i)).statusCode < 400) ∧
        (net (u i)).location = some (u (i + 1))) →
    fetchUrlWithRedirects net n (u 0) = fetchUrlWithRedirects net 0 (u n) := by
  intro n
  induction n with
  | zero => intro u _; rfl
  | succ n ih =>
    intro u h
    have h0 := h 0 (Nat.succ_pos n)
    rw [fetchUrlWithRedirects_step net n (u 0) (u 1) h0.1 h0.2]
    have := ih (fun i => u (i + 1)) (fun i hi => h (i + 1) (by omega))
    simpa using this

/-- C6: a redirect chain needing exactly 5 hops resolves with the terminal
response under the default budget of 5, while a chain that needs a 6th hop
rejects with "Too many redirects". -/
theorem c6_redirect_budget (netA netB : String → NetResponse) (u : Nat → String)
    (hA : ∀ i, i < 5 → (300 ≤ (netA (u i)).statusCode ∧ (netA (u i)).statusCode < 400) ∧
        (netA (u i)).location = some (u (i + 1)))
    (hA5 : ¬((300 ≤ (netA (u 5)).statusCode ∧ (netA (u 5)).statusCode < 400) ∧
        (netA (u 5)).location.isSome))
    (hB : ∀ i, i < 6 → (300 ≤ (netB (u i)).statusCode ∧ (netB (u i)).statusCode < 400) ∧
        (netB (u i)).location = some (u (i + 1))) :
    fetchUrlWithRedirects netA 5 (u 0) = Except.ok (netA (u 5)) ∧
    fetchUrlWithRedirects netB 5 (u 0) = Except.error "Too many redirects" := by
  constructor
  · rw [fetchUrlWithRedirects_chain netA 5 u hA]
    exact fetchUrlWithRedirects_terminal netA 0 (u 5) hA5
  · rw [fetchUrlWithRedirects_chain netB 5 u (fun i hi => hB i (by omega))]
    have h5 := hB 5 (by omega)
    exact fetchUrlWithRedirects_exhausted netB (u 5) h5.1 (by rw [h5.2]; rfl)

/-- Concrete 5-hop network for the C6 witness: `u0 → u1 → u2 → u3 → u4 → u5`
with a 200 at `u5`. -/
def wNetFiveHops : String → NetResponse := fun s =>
  if s = "u0" then ⟨301, some "u1"⟩
  else if s = "u1" then ⟨302, some "u2"⟩
  else if s = "u2" then ⟨303, some "u3"⟩
  else if s = "u3" then ⟨307, some "u4"⟩
  else if s = "u4" then ⟨308, some "u5"⟩
  else ⟨200, none⟩

/-- Concrete 6-hop network for the C6 witness: every `u_i` redirects onward. -/
def wNetSixHops : String → NetResponse := fun s =>
  if s = "u0" then ⟨301, some "u1"⟩
  else if s = "u1" then ⟨302, some "u2"⟩
  else if s = "u2" then ⟨303, some "u3"⟩
  else if s = "u3" then ⟨307, some "u4"⟩
  else if s = "u4" then ⟨308, some "u5"⟩
  else if s = "u5" then ⟨301, some "u6"⟩
  else ⟨301, some "u6"⟩

/-- URL names used by the C6 witness. -/
def wUrls : Nat → String := fun n =>
  (["u0", "u1", "u2", "u3", "u4", "u5", "u6"].getD n "u6")

/-- Witness for C6 on the concrete networks. -/
theorem c6_redirect_budget_witness :
    (∀ i, i < 5 → (300 ≤ (wNetFiveHops (wUrls i)).statusCode ∧
        (wNetFiveHops (wUrls i)).statusCode < 400) ∧
        (wNetFiveHops (wUrls i)).location = some (wUrls (i + 1))) ∧
    (¬((300 ≤ (wNetFiveHops (wUrls 5)).statusCode ∧ (wNetFiveHops (wUrls 5)).statusCode < 400) ∧
        (wNetFiveHops (wUrls 5)).location.isSome)) ∧
    (∀ i, i < 6 → (300 ≤ (wNetSixHops (wUrls i)).statusCode ∧
        (wNetSixHops (wUrls i)).statusCode < 400) ∧
        (wNetSixHops (wUrls i)).location = some (wUrls (i + 1))) ∧
    (fetchUrlWithRedirects wNetFiveHops 5 (wUrls 0) = Except.ok (wNetFiveHops (wUrls 5)) ∧
     fetchUrlWithRedirects wNetSixHops 5 (wUrls 0) = Except.error "Too many redirects") :=
  ⟨by decide, by decide, by decide,
    c6_redirect_budget wNetFiveHops wNetSixHops wUrls (by decide) (by decide) (by decide)⟩

/-! ## Catalog state and `recommendModels` (`modelManager.cjs`)

`recommendModels` runs `this.sampleModels.sort((a, b) => a.size - b.size)`:
JavaScript `Array.prototype.sort` sorts the array **in place** (and returns
the same array), so the stored catalog itself ends up size-ascending. -/

/-- The catalog fields the claims depend on. -/
structure CatalogModel where
  id : String
  size : Nat
  isDownloaded : Bool
deriving DecidableEq

/-- Stable ascending-by-`size` insertion, modelling the effect of
`sort((a, b) => a.size - b.size)`. -/
def insertAscSize (x : CatalogModel) : List CatalogModel → List CatalogModel
  | [] => [x]
  | y :: ys => if x.size ≤ y.size then x :: y :: ys else y :: insertAscSize x ys

/-- Sort the catalog ascending by `size`. -/
def sortBySize (l : List CatalogModel) : List CatalogModel := l.foldr insertAscSize []

/-- The mutable `ModelManager` state: its `sampleModels` array. -/
structure ManagerState where
  sampleModels : List CatalogModel
deriving DecidableEq

/-- The static catalog built in the `ModelManager` constructor (ids and
`size` fields from the source). -/
def sampleModelsInit : List CatalogModel :=
  [⟨"tinyllama-1.1b-chat-v1.0", 700000000, false⟩,
   ⟨"phi-2", 1600000000, false⟩,
   ⟨"tinyllama-compat", 420000000, false⟩,
   ⟨"orca-mini", 1900000000, false⟩,
   ⟨"mistral-7b-instruct", 4500000000, false⟩]

/-- `ModelManager.recommendModels`: sorts `sampleModels` in place by
ascending size and returns the (same, now sorted) array. -/
def recommendModels (st : ManagerState) : List CatalogModel × ManagerState :=
  let sorted := sortBySize st.sampleModels
  (sorted, ⟨sorted⟩)

/-- Inserting into the ascending list is a permutation of consing. -/
lemma insertAscSize_perm (x : CatalogModel) (l : List CatalogModel) :
    List.Perm (insertAscSize x l) (x :: l) := by
  induction l with
  | nil => rfl
  | cons y ys ih =>
    by_cases h : x.size ≤ y.size
    · simp [insertAscSize, h]
    · simp only [insertAscSize, h, if_neg, if_false]
      exact List.Perm.trans (List.Perm.cons y ih) (List.Perm.swap x y ys)

/-- Members of the insertion are the new element or old members. -/
lemma mem_insertAscSize (a x : CatalogModel) (l : List CatalogModel)
    (h : a ∈ insertAscSize x l) : a = x ∨ a ∈ l := by
  have := (List.Perm.mem_iff (insertAscSize_perm x l)).mp h
  simpa using this

/-- Insertion preserves the ascending-by-size pairwise ordering. -/
lemma insertAscSize_pairwise (x : CatalogModel) (l : List CatalogModel)
    (h : List.Pairwise (fun a b => a.size ≤ b.size) l) :
    List.Pairwise (fun a b => a.size ≤ b.size) (insertAscSize x l) := by
  induction l with
  | nil => simp [insertAscSize]
  | cons y ys ih =>
    by_cases hxy : x.size ≤ y.size
    · simp only [insertAscSize, hxy, if_true]
      refine List.Pairwise.cons ?_ h
      intro b hb
      rcases List.mem_cons.mp hb with rfl | hb
      · exact hxy
      · exact le_trans hxy (List.rel_of_pairwise_cons h hb)
    · simp only [insertAscSize, hxy, if_false]
      refine List.Pairwise.cons ?_ (ih (List.Pairwise.of_cons h))
      intro b hb
      rcases mem_insertAscSize b x ys hb with rfl | hb
      · exact le_of_not_le hxy
      · exact List.rel_of_pairwise_cons h hb

/-- `sortBySize` permutes its input. -/
lemma sortBySize_perm (l : List CatalogModel) : List.Perm (sortBySize l) l := by
  induction l with
  | nil => rfl
  | cons x xs ih =>
    exact List.Perm.trans (insertAscSize_perm x (sortBySize xs)) (List.Perm.cons x ih)

/-- `sortBySize` output is ascending by size. -/
lemma sortBySize_pairwise (l : List CatalogModel) :
    List.Pairwise (fun a b => a.size ≤ b.size) (sortBySize l) := by
  induction l with
  | nil => simp [sortBySize]
  | cons x xs ih => exact insertAscSize_pairwise x (sortBySize xs) ih

/-- C10: `recommendModels` returns the catalog ascending by size, and the
returned list **is** the stored catalog after the call (the sort is in
place), a permutation of the catalog before the call — so every subsequent
catalog read observes the sorted order. -/
theorem c10_recommend_sorts_in_place (st : ManagerState) :
    (recommendModels st).1 = (recommendModels st).2.sampleModels ∧
    List.Pairwise (fun a b => a.size ≤ b.size) (recommendModels st).1 ∧
    List.Perm (recommendModels st).1 st.sampleModels := by
  refine ⟨rfl, ?_, ?_⟩
  · exact sortBySize_pairwise st.sampleModels
  · exact sortBySize_perm st.sampleModels

/-! ## Verification and catalog refresh (`modelManager.cjs`)

`verifyModel` checks existence and a 1,000,000-byte minimum size, forcing
`isDownloaded` to `false` on failure — but it never renames anything.  The
quarantine-by-rename of an undersized file (to `<path>.corrupted`) lives in
`getAvailableModels`, the per-entry catalog refresh.

The filesystem slice a single model touches is the size (if the file exists)
at its resolved path and at the `.corrupted` sibling. -/

/-- One catalog entry's mutable acquisition flag. -/
structure ModelEntry where
  id : String
  isDownloaded : Bool
deriving DecidableEq

/-- The filesystem slice for one model: size at the resolved model path and
at `<path>.corrupted` (`none` = the path does not exist). -/
structure ModelFilePaths where
  orig : Option Nat
  corrupted : Option Nat
deriving DecidableEq

/-- Result value of `ModelManager.verifyModel`. -/
structure VerifyResult where
  success : Bool
  error : Option String
  size : Option Nat
deriving DecidableEq

/-- `ModelManager.verifyModel`: missing file and undersized file fail and
force `isDownloaded := false`; the filesystem is never touched. -/
def verifyModel (entry : ModelEntry) (fsv : ModelFilePaths) :
    VerifyResult × ModelEntry × ModelFilePaths :=
  match fsv.orig with
  | none => (⟨false, some "Model file not found", none⟩,
      { entry with isDownloaded := false }, fsv)
  | some sz =>
    if sz < 1000000 then
      (⟨false, some ("Model file is too small (" ++ toString sz ++ " bytes)"), some sz⟩,
       { entry with isDownloaded := false }, fsv)
    else (⟨true, none, some sz⟩, { entry with isDownloaded := true }, fsv)

/-- The per-entry body of `ModelManager.getAvailableModels`: recompute
`isDownloaded` from the filesystem and rename an existing but undersized
file to `<path>.corrupted` (quarantine). -/
def refreshModelEntry (entry : ModelEntry) (fsv : ModelFilePaths) :
    ModelEntry × ModelFilePaths :=
  match fsv.orig with
  | none => ({ entry with isDownloaded := false }, fsv)
  | some sz =>
    if 1000000 < sz then ({ entry with isDownloaded := true }, fsv)
    else ({ entry with isDownloaded := false }, ⟨none, some sz⟩)

/-- C3 counterexample: for an existing 500-byte artifact, `verifyModel` does
return the too-small failure and clears `isDownloaded`, but it does **not**
quarantine: after the call the original path still exists and no suffixed
copy was created — contradicting the claim that `verify` renames the file
aside. -/
theorem c3_counterexample :
    (verifyModel ⟨"tinyllama-1.1b-chat-v1.0", true⟩ ⟨some 500, none⟩).1.success = false ∧
    (verifyModel ⟨"tinyllama-1.1b-chat-v1.0", true⟩ ⟨some 500, none⟩).2.1.isDownloaded = false ∧
    ¬((verifyModel ⟨"tinyllama-1.1b-chat-v1.0", true⟩ ⟨some 500, none⟩).2.2.orig = none ∧
      (verifyModel ⟨"tinyllama-1.1b-chat-v1.0", true⟩ ⟨some 500, none⟩).2.2.corrupted = some 500) := by
  refine ⟨rfl, rfl, ?_⟩
  intro h
  exact Option.noConfusion h.1

/-- C3 amended: for an artifact below the 1,000,000-byte threshold,
`verifyModel` returns the too-small failure, forces `isDownloaded` to false
and leaves the filesystem untouched; the quarantine-by-rename (original path
gone, `.corrupted` copy present, `isDownloaded` forced false) is performed by
the catalog refresh `getAvailableModels`, not by `verifyModel`. -/
theorem c3_verify_small_amended (entry : ModelEntry) (fsv : ModelFilePaths) (sz : Nat)
    (h1 : fsv.orig = some sz) (h2 : sz < 1000000) :
    (verifyModel entry fsv).1.success = false ∧
    (verifyModel entry fsv).1.error =
      some ("Model file is too small (" ++ toString sz ++ " bytes)") ∧
    (verifyModel entry fsv).2.1.isDownloaded = false ∧
    (verifyModel entry fsv).2.2 = fsv ∧
    (refreshModelEntry entry fsv).1.isDownloaded = false ∧
    (refreshModelEntry entry fsv).2.orig = none ∧
    (refreshModelEntry entry fsv).2.corrupted = some sz := by
  have h2' : ¬(1000000 < sz) := by omega
  rcases fsv with ⟨orig, corrupted⟩
  cases h1
  simp [verifyModel, refreshModelEntry, h2, h2']

/-- Witness for the amended C3 at a concrete undersized artifact. -/
theorem c3_verify_small_amended_witness :
    (⟨some 500, none⟩ : ModelFilePaths).orig = some 500 ∧ 500 < 1000000 ∧
    ((verifyModel ⟨"phi-2", true⟩ ⟨some 500, none⟩).1.success = false ∧
     (verifyModel ⟨"phi-2", true⟩ ⟨some 500, none⟩).1.error =
       some ("Model file is too small (" ++ toString 500 ++ " bytes)") ∧
     (verifyModel ⟨"phi-2", true⟩ ⟨some 500, none⟩).2.1.isDownloaded = false ∧
     (verifyModel ⟨"phi-2", true⟩ ⟨some 500, none⟩).2.2 = ⟨some 500, none⟩ ∧
     (refreshModelEntry ⟨"phi-2", true⟩ ⟨some 500, none⟩).1.isDownloaded = false ∧
     (refreshModelEntry ⟨"phi-2", true⟩ ⟨some 500, none⟩).2.orig = none ∧
     (refreshModelEntry ⟨"phi-2", true⟩ ⟨some 500, none⟩).2.corrupted = some 500) :=
  ⟨rfl, by decide, c3_verify_small_amended ⟨"phi-2", true⟩ ⟨some 500, none⟩ 500 rfl (by decide)⟩

/-! ## Native `LLMInference::LoadModel` (`llm_inference.cpp.bak3`)

`LoadModel` first frees the previous context and model handles and resets
`modelLoaded = false`, and only then attempts `llama_model_load_from_file`
and `llama_init_from_model`; if context creation fails the freshly loaded
model is freed again.  The two oracle parameters stand for the handles those
two native calls return (`none` = the call failed/returned null). -/

/-- The native wrapper's state: the `llama_model*` and `llama_context*`
handles (abstracted as numeric ids) and the `modelLoaded` flag. -/
structure NativeState where
  model : Option Nat
  ctx : Option Nat
  modelLoaded : Bool
deriving DecidableEq

/-- Observable native resource events during one `LoadModel` call. -/
inductive NativeEvent where
  | freedCtx (h : Nat)
  | freedModel (h : Nat)
  | loadedModel (h : Nat)
  | createdCtx (h : Nat)
deriving DecidableEq

/-- The cleanup prologue of `LoadModel`: `llama_free(ctx)` then
`llama_model_free(model)` for whatever handles are currently held. -/
def releaseEvents (st : NativeState) : List NativeEvent :=
  (match st.ctx with | some c => [NativeEvent.freedCtx c] | none => []) ++
  (match st.model with | some m => [NativeEvent.freedModel m] | none => [])

/-- `LLMInference::LoadModel`: release the previous model and context, clear
`modelLoaded`, then load the model and create the context, freeing the new
model again if context creation fails.  Returns the new state, the boolean
result, and the resource-event trace. -/
def nativeLoadModel (st : NativeState) (newModel newCtx : Option Nat) :
    NativeState × Bool × List NativeEvent :=
  match newModel with
  | none => (⟨none, none, false⟩, false, releaseEvents st)
  | some m =>
    match newCtx with
    | none => (⟨none, none, false⟩, false,
        releaseEvents st ++ [NativeEvent.loadedModel m, NativeEvent.freedModel m])
    | some c => (⟨some m, some c, true⟩, true,
        releaseEvents st ++ [NativeEvent.loadedModel m, NativeEvent.createdCtx c])

/-- `LLMInference::IsModelLoaded`. -/
def nativeIsModelLoaded (st : NativeState) : Bool := st.modelLoaded

/-- C9: every `LoadModel` invocation begins by releasing the previously held
model and context (the event trace starts with exactly those frees, before
any load event), and after a failed `LoadModel` the state holds no model, no
context, and `IsModelLoaded` reports false — the prior session is gone, not
restored. -/
theorem c9_load_releases_previous (st : NativeState) (newModel newCtx : Option Nat)
    (hfail : newModel = none ∨ newCtx = none) :
    (∃ rest, (nativeLoadModel st newModel newCtx).2.2 = releaseEvents st ++ rest) ∧
    (nativeLoadModel st newModel newCtx).1 = ⟨none, none, false⟩ ∧
    nativeIsModelLoaded (nativeLoadModel st newModel newCtx).1 = false ∧
    (nativeLoadModel st newModel newCtx).2.1 = false := by
  rcases newModel with _ | m
  · exact ⟨⟨[], by simp [nativeLoadModel]⟩, rfl, rfl, rfl⟩
  · rcases newCtx with _ | c
    · exact ⟨⟨[NativeEvent.loadedModel m, NativeEvent.freedModel m],
        by simp [nativeLoadModel]⟩, rfl, rfl, rfl⟩
    · rcases hfail with h | h <;> exact Option.noConfusion h

/-- Witness for C9: a previously loaded session (model 7, context 3) and a
failing `llama_model_load_from_file`. -/
theorem c9_load_releases_previous_witness :
    ((none : Option Nat) = none ∨ (none : Option Nat) = none) ∧
    ((∃ rest, (nativeLoadModel ⟨some 7, some 3, true⟩ none none).2.2 =
        releaseEvents ⟨some 7, some 3, true⟩ ++ rest) ∧
     (nativeLoadModel ⟨some 7, some 3, true⟩ none none).1 = ⟨none, none, false⟩ ∧
     nativeIsModelLoaded (nativeLoadModel ⟨some 7, some 3, true⟩ none none).1 = false ∧
     (nativeLoadModel ⟨some 7, some 3, true⟩ none none).2.1 = false) :=
  ⟨Or.inl rfl, c9_load_releases_previous ⟨some 7, some 3, true⟩ none none (Or.inl rfl)⟩

/-! ## `InferenceEngine.loadModel` (`inferenceEngine.cjs`)

The engine checks file existence and the 1,000,000-byte minimum, then calls
the native `loadModel(modelPath, gpuLayers, contextSize)`.  The native call
is wrapped in try/catch; a throw leaves `success` (initialised `false`)
unchanged.  If the first attempt did not succeed and `gpuLayers > 0`, it
retries exactly once with 0 GPU layers, again defensively.  Only success
assigns `this.activeModel`.

The oracle `native : Nat → Option Bool` gives the outcome of the first and
(if made) second native call: `none` = the call threw, `some b` = it
returned `b`. -/

/-- Result shape of `InferenceEngine.loadModel`. -/
structure EngineLoadResult where
  success : Bool
  error : Option String
  modelId : Option String
deriving DecidableEq

/-- The error message built when both attempts fail. -/
def loadFailedMessage (logFile : String) : String :=
  "Failed to load model. This could be due to insufficient memory, GPU compatibility issues, or an unsupported model format.\nCheck logs at: " ++ logFile

/-- `InferenceEngine.loadModel`: returns the result, the `activeModel` after
the call, and the list of `(gpuLayers, contextSize)` arguments of every
native load call made, in order. -/
def engineLoadModel (modelId logFile : String) (fileExists : Bool) (fileSize : Nat)
    (gpuLayers contextSize : Nat) (native : Nat → Option Bool)
    (activeModel : Option String) :
    EngineLoadResult × Option String × List (Nat × Nat) :=
  if fileExists = false then
    (⟨false, some "Model file not found", none⟩, activeModel, [])
  else if fileSize < 1000000 then
    (⟨false, some "Model file may be corrupted (too small)", none⟩, activeModel, [])
  else
    let s1 := (native 0).getD false
    if s1 then (⟨true, none, some modelId⟩, some modelId, [(gpuLayers, contextSize)])
    else if 0 < gpuLayers then
      let s2 := (native 1).getD false
      if s2 then
        (⟨true, none, some modelId⟩, some modelId, [(gpuLayers, contextSize), (0, contextSize)])
      else
        (⟨false, some (loadFailedMessage logFile), none⟩, activeModel,
         [(gpuLayers, contextSize), (0, contextSize)])
    else (⟨false, some (loadFailedMessage logFile), none⟩, activeModel, [(gpuLayers, contextSize)])

/-- C1: when the first native attempt with `gpuLayers > 0` does not report
success (returns false or throws), `loadModel` makes exactly one retry with
0 GPU layers; if that also fails, the result is the load-failure error, and
`activeModel` is left exactly as it was — no context is recorded as loaded. -/
theorem c1_load_fallback (modelId logFile : String) (fileSize gpuLayers contextSize : Nat)
    (native : Nat → Option Bool) (activeModel : Option String)
    (hsize : 1000000 ≤ fileSize) (hgpu : 0 < gpuLayers)
    (h1 : native 0 ≠ some true) (h2 : native 1 ≠ some true) :
    (engineLoadModel modelId logFile true fileSize gpuLayers contextSize native activeModel).2.2
      = [(gpuLayers, contextSize), (0, contextSize)] ∧
    (engineLoadModel modelId logFile true fileSize gpuLayers contextSize native activeModel).1.success
      = false ∧
    (engineLoadModel modelId logFile true fileSize gpuLayers contextSize native activeModel).1.error
      = some (loadFailedMessage logFile) ∧
    (engineLoadModel modelId logFile true fileSize gpuLayers contextSize native activeModel).2.1
      = activeModel := by
  have hs1 : (native 0).getD false = false := by
    rcases hb : native 0 with _ | b
    · rfl
    · cases b
      · rfl
      · exact absurd hb h1
  have hs2 : (native 1).getD false = false := by
    rcases hb : native 1 with _ | b
    · rfl
    · cases b
      · rfl
      · exact absurd hb h2
  have hsz : ¬(fileSize < 1000000) := by omega
  simp [engineLoadModel, hs1, hs2, hsz, hgpu]

/-- Witness for C1: a 1.6 GB artifact, 32 GPU layers, both native attempts
returning false. -/
theorem c1_load_fallback_witness :
    1000000 ≤ 1600000000 ∧ 0 < 32 ∧
    ((fun _ : Nat => some false) 0 ≠ some true) ∧
    ((fun _ : Nat => some false) 1 ≠ some true) ∧
    ((engineLoadModel "phi-2" "inference-engine.log" true 1600000000 32 2048
        (fun _ => some false) none).2.2 = [(32, 2048), (0, 2048)] ∧
     (engineLoadModel "phi-2" "inference-engine.log" true 1600000000 32 2048
        (fun _ => some false) none).1.success = false ∧
     (engineLoadModel "phi-2" "inference-engine.log" true 1600000000 32 2048
        (fun _ => some false) none).1.error = some (loadFailedMessage "inference-engine.log") ∧
     (engineLoadModel "phi-2" "inference-engine.log" true 1600000000 32 2048
        (fun _ => some false) none).2.1 = none) :=
  ⟨by decide, by decide, by decide, by decide,
    c1_load_fallback "phi-2" "inference-engine.log" 1600000000 32 2048
      (fun _ => some false) none (by decide) (by decide) (by decide) (by decide)⟩

/-! ## Download with mirror fallback (`modelManager.cjs`)

`tryDownloadWithFallbacks` iterates over `[model.url, ...alternativeUrls]`.
Each attempt first unlinks any stale `<path>.tmp` and opens a write stream
there (an empty temp file), then fetches.  Failures (fetch rejection, non-200
status, undersized `content-length` header, stream error, undersized written
file) record the error and move on to the next URL; only a fully streamed,
size-checked body is renamed `tmp → final`.  After every URL has failed the
whole call throws "All download attempts failed. Last error: <last>".

One attempt is abstracted by what the network does for that URL; the
filesystem slice is the byte content (if any) at the temp and final paths. -/

/-- What the network does for one URL of the fallback sequence. -/
inductive AttemptSpec where
  | fetchError (msg : String)
  | response (status : Nat) (contentLength : Option Nat) (streamOutcome : Except String (List Nat))

/-- The filesystem slice of one download: content at `<path>.tmp` and at the
final model path (`none` = the path does not exist). -/
structure DownloadFS where
  tmpFile : Option (List Nat)
  finalFile : Option (List Nat)
deriving DecidableEq

/-- The `totalSize && totalSize < 1000000` header check (`parseInt` of a
missing header is `NaN`, which is falsy, as is `0`). -/
def headerTooSmall : Option Nat → Bool
  | some n => decide (n ≠ 0 ∧ n < 1000000)
  | none => false

/-- One attempt of the `tryDownloadWithFallbacks` loop: clear the stale temp
file, create the write stream, fetch, run the three size checkpoints, and
rename `tmp → final` on success. -/
def runAttempt (spec : AttemptSpec) (fs0 : DownloadFS) : Except String Unit × DownloadFS :=
  let fs : DownloadFS := ⟨some [], fs0.finalFile⟩
  match spec with
  | .fetchError msg => (.error msg, fs)
  | .response status cl so =>
    if status ≠ 200 then
      (.error ("HTTP error: " ++ toString status), ⟨none, fs.finalFile⟩)
    else if headerTooSmall cl then
      (.error ("Invalid file size in headers: " ++ toString (cl.getD 0) ++ " bytes"),
       ⟨none, fs.finalFile⟩)
    else match so with
    | .error msg => (.error msg, ⟨none, fs.finalFile⟩)
    | .ok bytes =>
      if bytes.length < 1000000 then
        (.error ("Downloaded file too small: " ++ toString bytes.length ++ " bytes"),
         ⟨none, fs.finalFile⟩)
      else (.ok (), ⟨none, some bytes⟩)

/-- An attempt succeeds exactly when the terminal response is a 200 whose
header passes the size check and whose fully streamed body is at least
1,000,000 bytes. -/
def attemptOk : AttemptSpec → Prop
  | .response status cl (.ok bytes) =>
      status = 200 ∧ headerTooSmall cl = false ∧ 1000000 ≤ bytes.length
  | _ => False

instance attemptOkDecidable : DecidablePred attemptOk := fun spec =>
  match spec with
  | .fetchError _ => isFalse (fun h => h)
  | .response _ _ (.error _) => isFalse (fun h => h)
  | .response status cl (.ok bytes) =>
      inferInstanceAs (Decidable (status = 200 ∧ headerTooSmall cl = false ∧
        1000000 ≤ bytes.length))

/-- The bytes a successful attempt streams. -/
def attemptBytes : AttemptSpec → List Nat
  | .response _ _ (.ok bytes) => bytes
  | _ => []

/-- The error message a failing attempt records as `lastError`. -/
def attemptErrMsg : AttemptSpec → String
  | .fetchError msg => msg
  | .response status cl so =>
    if status ≠ 200 then "HTTP error: " ++ toString status
    else if headerTooSmall cl then
      "Invalid file size in headers: " ++ toString (cl.getD 0) ++ " bytes"
    else match so with
    | .error msg => msg
    | .ok bytes => "Downloaded file too small: " ++ toString bytes.length ++ " bytes"

/-- A successful attempt renames the streamed body into the final path and
leaves no temp file. -/
lemma runAttempt_ok (spec : AttemptSpec) (fs : DownloadFS) (h : attemptOk spec) :
    runAttempt spec fs = (.ok (), ⟨none, some (attemptBytes spec)⟩) := by
  rcases spec with msg | ⟨status, cl, so⟩
  · exact absurd h (by simp [attemptOk])
  · rcases so with msg | bytes
    · exact absurd h (by simp [attemptOk])
    · rcases h with ⟨h200, hcl, hlen⟩
      subst h200
      have : ¬(bytes.length < 1000000) := by omega
      simp [runAttempt, attemptBytes, hcl, this]

/-- A failing attempt reports its error message and does not touch the final
path. -/
lemma runAttempt_fail (spec : AttemptSpec) (fs : DownloadFS) (h : ¬attemptOk spec) :
    (runAttempt spec fs).1 = .error (attemptErrMsg spec) ∧
    (runAttempt spec fs).2.finalFile = fs.finalFile := by
  rcases spec with msg | ⟨status, cl, so⟩
  · exact ⟨rfl, rfl⟩
  · by_cases h200 : status = 200
    · subst h200
      by_cases hcl : headerTooSmall cl
      · simp [runAttempt, attemptErrMsg, hcl]
      · rcases so with msg | bytes
        · simp [runAttempt, attemptErrMsg, hcl]
        · have hlen : bytes.length < 1000000 := by
            by_contra hlen
            exact h ⟨rfl, by simpa using hcl, by omega⟩
          simp [runAttempt, attemptErrMsg, hcl, hlen]
    · simp [runAttempt, attemptErrMsg, h200]

/-- `ModelManager.tryDownloadWithFallbacks`: try each URL's attempt in order,
remembering the last error; the first success returns immediately; if the
list is exhausted, throw the aggregate message. -/
def tryDownloadWithFallbacks :
    List AttemptSpec → DownloadFS → Option String → Except String Unit × DownloadFS
  | [], fs, lastErr =>
    (.error ("All download attempts failed. Last error: " ++ lastErr.getD "null"), fs)
  | spec :: rest, fs, lastErr =>
    match runAttempt spec fs with
    | (.ok _, fs2) => (.ok (), fs2)
    | (.error msg, fs2) => tryDownloadWithFallbacks rest fs2 (some msg)

/-- Result shape of `ModelManager.downloadModel`. -/
structure DownloadResult where
  success : Bool
  error : Option String
deriving DecidableEq

/-- `ModelManager.downloadModel` for a model present in the catalog: run the
fallback loop; on success set `isDownloaded`, on failure surface the thrown
message. -/
def downloadModel (specs : List AttemptSpec) (entry : ModelEntry) (fs : DownloadFS) :
    DownloadResult × ModelEntry × DownloadFS :=
  match tryDownloadWithFallbacks specs fs none with
  | (.ok _, fs2) => (⟨true, none⟩, { entry with isDownloaded := true }, fs2)
  | (.error msg, fs2) => (⟨false, some msg⟩, entry, fs2)

/-- Exhausting a non-empty all-failing list throws the aggregate message
built from the last attempt's error, and never touches the final path. -/
lemma tryDownload_all_fail (specs : List AttemptSpec) :
    ∀ (fs : DownloadFS) (lastErr : Option String),
    specs ≠ [] → (∀ a ∈ specs, ¬attemptOk a) →
    (tryDownloadWithFallbacks specs fs lastErr).1 =
      .error ("All download attempts failed. Last error: " ++
        attemptErrMsg (specs.getLast?.getD (AttemptSpec.fetchError "null"))) ∧
    (tryDownloadWithFallbacks specs fs lastErr).2.finalFile = fs.finalFile := by
  induction specs with
  | nil => intro fs lastErr hne _; exact absurd rfl hne
  | cons spec rest ih =>
    intro fs lastErr _ hall
    have hspec : ¬attemptOk spec := hall spec (List.mem_cons_self spec rest)
    have hrun := runAttempt_fail spec fs hspec
    rcases hrunEq : runAttempt spec fs with ⟨res, fs2⟩
    rw [hrunEq] at hrun
    simp only at hrun
    rcases hrun with ⟨hres, hfin⟩
    subst hres
    rcases rest with _ | ⟨spec2, rest2⟩
    · simp [tryDownloadWithFallbacks, hrunEq, hfin]
    · have hne2 : spec2 :: rest2 ≠ [] := by simp
      have := ih fs2 (some (attemptErrMsg spec)) hne2
        (fun a ha => hall a (List.mem_cons_of_mem spec ha))
      have hlast : (spec :: spec2 :: rest2).getLast? = (spec2 :: rest2).getLast? :=
        List.getLast?_cons_cons
      rw [hlast]
      simp only [tryDownloadWithFallbacks, hrunEq]
      exact ⟨this.1, this.2.trans hfin⟩

/-- If every attempt before `spec` fails and `spec` succeeds, the loop stops
at `spec` with its streamed bytes renamed into the final path and no temp
file left. -/
lemma tryDownload_first_ok (pre : List AttemptSpec) :
    ∀ (spec : AttemptSpec) (post : List AttemptSpec) (fs : DownloadFS) (lastErr : Option String),
    (∀ a ∈ pre, ¬attemptOk a) → attemptOk spec →
    tryDownloadWithFallbacks (pre ++ spec :: post) fs lastErr =
      (.ok (), ⟨none, some (attemptBytes spec)⟩) := by
  induction pre with
  | nil =>
    intro spec post fs lastErr _ hok
    simp only [List.nil_append, tryDownloadWithFallbacks, runAttempt_ok spec fs hok]
  | cons a pre ih =>
    intro spec post fs lastErr hall hok
    have ha : ¬attemptOk a := hall a (List.mem_cons_self a pre)
    have hrun := runAttempt_fail a fs ha
    rcases hrunEq : runAttempt a fs with ⟨res, fs2⟩
    rw [hrunEq] at hrun
    simp only at hrun
    rcases hrun with ⟨hres, _⟩
    subst hres
    simp only [List.cons_append, tryDownloadWithFallbacks, hrunEq]
    exact ih spec post fs2 (some (attemptErrMsg a))
      (fun b hb => hall b (List.mem_cons_of_mem a hb)) hok

/-- C2: if the primary URL's attempt fails and some later URL's attempt is
the first to succeed, `downloadModel` reports success, the final path holds
exactly the bytes streamed by that succeeding attempt, no temp file is left,
and `isDownloaded` is set; and whenever every URL in the sequence fails,
`downloadModel` reports failure carrying the last underlying error message
and the final path is untouched. -/
theorem c2_mirror_fallback (primary : AttemptSpec) (mid : List AttemptSpec)
    (winner : AttemptSpec) (post : List AttemptSpec) (entry : ModelEntry) (fs : DownloadFS)
    (allFail : List AttemptSpec) (entry2 : ModelEntry) (fs2 : DownloadFS)
    (hprimary : ¬attemptOk primary) (hmid : ∀ a ∈ mid, ¬attemptOk a)
    (hwin : attemptOk winner)
    (hallne : allFail ≠ []) (hall : ∀ a ∈ allFail, ¬attemptOk a) :
    (downloadModel (primary :: mid ++ winner :: post) entry fs).1.success = true ∧
    (downloadModel (primary :: mid ++ winner :: post) entry fs).2.2.finalFile =
      some (attemptBytes winner) ∧
    (downloadModel (primary :: mid ++ winner :: post) entry fs).2.2.tmpFile = none ∧
    (downloadModel (primary :: mid ++ winner :: post) entry fs).2.1.isDownloaded = true ∧
    (downloadModel allFail entry2 fs2).1.success = false ∧
    (downloadModel allFail entry2 fs2).1.error =
      some ("All download attempts failed. Last error: " ++
        attemptErrMsg (allFail.getLast?.getD (AttemptSpec.fetchError "null"))) ∧
    (downloadModel allFail entry2 fs2).2.2.finalFile = fs2.finalFile := by
  have hpre : ∀ a ∈ primary :: mid, ¬attemptOk a := by
    intro a ha
    rcases List.mem_cons.mp ha with rfl | ha
    · exact hprimary
    · exact hmid a ha
  have hok := tryDownload_first_ok (primary :: mid) winner post fs none hpre hwin
  have hfail := tryDownload_all_fail allFail fs2 none hallne hall
  constructor
  · simp only [downloadModel, List.cons_append] at hok ⊢
    rw [hok]
  · constructor
    · simp only [downloadModel, List.cons_append] at hok ⊢
      rw [hok]
    · constructor
      · simp only [downloadModel, List.cons_append] at hok ⊢
        rw [hok]
      · constructor
        · simp only [downloadModel, List.cons_append] at hok ⊢
          rw [hok]
        · rcases htry : tryDownloadWithFallbacks allFail fs2 none with ⟨res, fsr⟩
          rw [htry] at hfail
          simp only at hfail
          rcases hfail with ⟨hres, hfin⟩
          subst hres
          simp [downloadModel, htry, hfin]

/-- Witness for C2: the primary URL 404s, the single mirror streams a
1,000,000-byte body successfully; and separately a two-URL sequence where
both fail (404, then stream reset). -/
theorem c2_mirror_fallback_witness :
    (¬attemptOk (.response 404 none (.ok []))) ∧
    (attemptOk (.response 200 (some 2000000) (.ok (List.replicate 1000000 7)))) ∧
    (((.response 404 none (.ok [])) :: [(.response 500 none (.ok []))] : List AttemptSpec) ≠ []) ∧
    (∀ a ∈ ((.response 404 none (.ok [])) :: [(.response 500 none (.ok []))] :
        List AttemptSpec), ¬attemptOk a) ∧
    ((downloadModel ((.response 404 none (.ok [])) :: [] ++
        (.response 200 (some 2000000) (.ok (List.replicate 1000000 7))) :: [])
        ⟨"phi-2", false⟩ ⟨none, none⟩).1.success = true ∧
     (downloadModel ((.response 404 none (.ok [])) :: [] ++
        (.response 200 (some 2000000) (.ok (List.replicate 1000000 7))) :: [])
        ⟨"phi-2", false⟩ ⟨none, none⟩).2.2.finalFile =
       some (attemptBytes (.response 200 (some 2000000) (.ok (List.replicate 1000000 7)))) ∧
     (downloadModel ((.response 404 none (.ok [])) :: [] ++
        (.response 200 (some 2000000) (.ok (List.replicate 1000000 7))) :: [])
        ⟨"phi-2", false⟩ ⟨none, none⟩).2.2.tmpFile = none ∧
     (downloadModel ((.response 404 none (.ok [])) :: [] ++
        (.response 200 (some 2000000) (.ok (List.replicate 1000000 7))) :: [])
        ⟨"phi-2", false⟩ ⟨none, none⟩).2.1.isDownloaded = true ∧
     (downloadModel ((.response 404 none (.ok [])) :: [(.response 500 none (.ok []))])
        ⟨"orca-mini", false⟩ ⟨none, some [1, 2, 3]⟩).1.success = false ∧
     (downloadModel ((.response 404 none (.ok [])) :: [(.response 500 none (.ok []))])
        ⟨"orca-mini", false⟩ ⟨none, some [1, 2, 3]⟩).1.error =
       some ("All download attempts failed. Last error: " ++
         attemptErrMsg ((((.response 404 none (.ok [])) :: [(.response 500 none (.ok []))]) :
            List AttemptSpec).getLast?.getD (AttemptSpec.fetchError "null"))) ∧
     (downloadModel ((.response 404 none (.ok [])) :: [(.response 500 none (.ok []))])
        ⟨"orca-mini", false⟩ ⟨none, some [1, 2, 3]⟩).2.2.finalFile = some [1, 2, 3]) := by
  refine ⟨by decide, ?_, by simp, by decide, ?_⟩
  · refine ⟨rfl, rfl, ?_⟩
    rw [List.length_replicate]
  · exact c2_mirror_fallback (.response 404 none (.ok [])) []
      (.response 200 (some 2000000) (.ok (List.replicate 1000000 7))) []
      ⟨"phi-2", false⟩ ⟨none, none⟩
      ((.response 404 none (.ok [])) :: [(.response 500 none (.ok []))])
      ⟨"orca-mini", false⟩ ⟨none, some [1, 2, 3]⟩
      (by decide) (by simp) ⟨rfl, rfl, by rw [List.length_replicate]⟩
      (by simp) (by decide)

/-! ## Output sanitizer (`inferenceEngine.cjs`, `sanitizeModelOutput`)

The pipeline, in source order over the code-unit sequence of the string:
(1) delete control characters `[\x00-\x09\x0B-\x0C\x0E-\x1F\x7F-\x9F]`;
(2) replace every character outside
    `[\x20-\x7E -ÿ -⁯　-〿]` by a space;
(3) collapse every whitespace run (`\s+`) to a single space;
(4) delete fenced code blocks (the lazy ` ```[\s\S]*?``` `);
(5) delete markup tags (`<[^>]*>`);
(6) replace URLs (`https?:\/\/[^\s]+`) by the literal `[URL]`;
(7) trim; an empty result (or a non-string/empty input) degrades to a fixed
fallback string.

The regex scanners are realised as fuel-indexed left-to-right scanners with
fuel `length`, which each global-replace pass can never exhaust since every
match consumes at least one character. -/

/-- JavaScript's `\s` class (also the character set `String.prototype.trim`
strips): space, `\t\n\v\f\r`, NBSP, Ogham space, the U+2000–U+200A range,
line/paragraph separators, narrow/medium spaces, ideographic space, BOM. -/
def isJsWs (c : Char) : Bool :=
  decide (c.toNat = 0x20 ∨ c.toNat = 0x9 ∨ c.toNat = 0xA ∨ c.toNat = 0xB ∨ c.toNat = 0xC ∨
    c.toNat = 0xD ∨ c.toNat = 0xA0 ∨ c.toNat = 0x1680 ∨
    (0x2000 ≤ c.toNat ∧ c.toNat ≤ 0x200A) ∨ c.toNat = 0x2028 ∨ c.toNat = 0x2029 ∨
    c.toNat = 0x202F ∨ c.toNat = 0x205F ∨ c.toNat = 0x3000 ∨ c.toNat = 0xFEFF)

/-- The control characters deleted by step (1):
`[\x00-\x09\x0B-\x0C\x0E-\x1F\x7F-\x9F]`. -/
def isCtrlRemoved (c : Char) : Bool :=
  decide (c.toNat ≤ 0x9 ∨ (0xB ≤ c.toNat ∧ c.toNat ≤ 0xC) ∨
    (0xE ≤ c.toNat ∧ c.toNat ≤ 0x1F) ∨ (0x7F ≤ c.toNat ∧ c.toNat ≤ 0x9F))

/-- The character set kept by step (2):
`[\x20-\x7E -ÿ -⁯　-〿]`. -/
def isAllowedChar (c : Char) : Bool :=
  decide ((0x20 ≤ c.toNat ∧ c.toNat ≤ 0x7E) ∨ (0xA0 ≤ c.toNat ∧ c.toNat ≤ 0xFF) ∨
    (0x2000 ≤ c.toNat ∧ c.toNat ≤ 0x206F) ∨ (0x3000 ≤ c.toNat ∧ c.toNat ≤ 0x303F))

/-- `replace(/\s+/g, ' ')` as a single scan: the flag records whether the
scanner is inside a whitespace run (whose first character became `' '`). -/
def collapseAux : List Char → Bool → List Char
  | [], _ => []
  | c :: rest, inRun =>
    if isJsWs c then
      if inRun then collapseAux rest true else ' ' :: collapseAux rest true
    else c :: collapseAux rest false

/-- Collapse every whitespace run to one space. -/
def collapseWs (l : List Char) : List Char := collapseAux l false

/-- Remove trailing whitespace. -/
def dropTrailingWs : List Char → List Char
  | [] => []
  | c :: rest =>
    let r := dropTrailingWs rest
    if r.isEmpty && isJsWs c then [] else c :: r

/-- `String.prototype.trim`. -/
def trimWs (l : List Char) : List Char := dropTrailingWs (l.dropWhile isJsWs)

/-- Backtick. -/
def isTick (c : Char) : Bool := decide (c.toNat = 0x60)

/-- Split at the first occurrence of three consecutive backticks, returning
the part before it and the part after it. -/
def splitFirstFence : List Char → Option (List Char × List Char)
  | a :: b :: c :: rest =>
    if isTick a && isTick b && isTick c then some ([], rest)
    else
      match splitFirstFence (b :: c :: rest) with
      | none => none
      | some (pre, post) => some (a :: pre, post)
  | _ => none

/-- One pass of `replace(/```[\s\S]*?```/g, '')`: repeatedly find an opening
fence with a closing fence after it (leftmost match, lazy body) and delete
the whole match.  Each match consumes at least six characters, so fuel
`length` is never exhausted. -/
def removeFencesAux : Nat → List Char → List Char
  | 0, l => l
  | Nat.succ fuel, l =>
    match splitFirstFence l with
    | none => l
    | some (pre, rest1) =>
      match splitFirstFence rest1 with
      | none => l
      | some (_, rest2) => pre ++ removeFencesAux fuel rest2

/-- `replace(/```[\s\S]*?```/g, '')`. -/
def removeFences (l : List Char) : List Char := removeFencesAux l.length l

/-- Split at the first occurrence of the character `t`, returning the part
before it and the part after it. -/
def splitAtChar (t : Char) : List Char → Option (List Char × List Char)
  | [] => none
  | c :: rest =>
    if c = t then some ([], rest)
    else
      match splitAtChar t rest with
      | none => none
      | some (pre, post) => some (c :: pre, post)

/-- `replace(/<[^>]*>/g, '')`: repeatedly delete from the first `<` through
the first `>` after it; if the first `<` has no `>` after it, no later start
can match either. -/
def removeTagsAux : Nat → List Char → List Char
  | 0, l => l
  | Nat.succ fuel, l =>
    match splitAtChar '<' l with
    | none => l
    | some (pre, rest1) =>
      match splitAtChar '>' rest1 with
      | none => l
      | some (_, rest2) => pre ++ removeTagsAux fuel rest2

/-- `replace(/<[^>]*>/g, '')`. -/
def removeTags (l : List Char) : List Char := removeTagsAux l.length l

/-- `https://` as characters. -/
def httpPrefixS : List Char := ['h', 't', 't', 'p', 's', ':', '/', '/']

/-- `http://` as characters. -/
def httpPrefixP : List Char := ['h', 't', 't', 'p', ':', '/', '/']

/-- `http` as characters — a match of `https?:\/\/` begins with it. -/
def httpPat : List Char := ['h', 't', 't', 'p']

/-- Does `pat` begin the list? -/
def begWith : List Char → List Char → Bool
  | [], _ => true
  | _ :: _, [] => false
  | p :: ps, c :: cs => decide (p = c) && begWith ps cs

/-- Does `pat` occur as a contiguous substring? -/
def hasSub (pat : List Char) : List Char → Bool
  | [] => pat.isEmpty
  | c :: rest => begWith pat (c :: rest) || hasSub pat rest

/-- Try to match `https?:\/\/` at the head (the optional `s` greedy, as in
the regex), returning the remainder after the matched scheme. -/
def isHttpAt (l : List Char) : Option (List Char) :=
  if begWith httpPrefixS l then some (l.drop 8)
  else if begWith httpPrefixP l then some (l.drop 7)
  else none

/-- The literal replacement `[URL]`. -/
def urlToken : List Char := ['[', 'U', 'R', 'L', ']']

/-- `replace(/(https?:\/\/[^\s]+)/g, '[URL]')`: at each position try the
scheme; a match additionally needs at least one following non-whitespace
character and then extends greedily to the next whitespace. -/
def replaceUrlsAux : Nat → List Char → List Char
  | 0, l => l
  | Nat.succ _, [] => []
  | Nat.succ fuel, c :: rest =>
    match isHttpAt (c :: rest) with
    | some r =>
      if (r.takeWhile (fun d => !isJsWs d)).isEmpty then c :: replaceUrlsAux fuel rest
      else urlToken ++ replaceUrlsAux fuel (r.dropWhile (fun d => !isJsWs d))
    | none => c :: replaceUrlsAux fuel rest

/-- `replace(/(https?:\/\/[^\s]+)/g, '[URL]')`. -/
def replaceUrls (l : List Char) : List Char := replaceUrlsAux l.length l

/-- The fixed result for a missing / empty input. -/
def errNoResponse : String := "Error: No valid response generated"

/-- The fixed fallback for an empty sanitization result (also the value of
the defensive catch-all). -/
def apologyFallback : String :=
  "I apologize, but I couldn't generate a proper response. Please try again."

/-- Steps (1)–(7) of the cleanup pipeline over the character sequence. -/
def sanitizeSteps (l : List Char) : List Char :=
  let l1 := l.filter (fun c => !isCtrlRemoved c)
  let l2 := l1.map (fun c => if isAllowedChar c then c else ' ')
  let l3 := collapseWs l2
  let l4 := removeFences l3
  let l5 := removeTags l4
  let l6 := replaceUrls l5
  trimWs l6

/-- `InferenceEngine.sanitizeModelOutput`: a falsy (empty) input yields the
fixed error string; otherwise run the pipeline, degrading an empty result to
the apology fallback. -/
def sanitizeModelOutput (text : String) : String :=
  if text = "" then errNoResponse
  else
    let cleaned := sanitizeSteps text.data
    if cleaned.isEmpty then apologyFallback else String.mk cleaned

/-- C7 counterexample: `sanitizeModelOutput` is **not** idempotent.  On
`"a <b> c"` the tag-removal step (which runs after whitespace collapsing)
joins the two spaces around the deleted tag, so the first pass returns
`"a  c"`, and a second pass collapses that double space to `"a c"`. -/
theorem c7_counterexample :
    sanitizeModelOutput "a <b> c" = "a  c" ∧
    sanitizeModelOutput (sanitizeModelOutput "a <b> c") = "a c" ∧
    sanitizeModelOutput (sanitizeModelOutput "a <b> c") ≠ sanitizeModelOutput "a <b> c" := by
  refine ⟨by decide, by decide, by decide⟩

/-! ### When is the sanitizer a fixed point?

The counterexample shows a deletion step (4)–(6) can join two spaces, which
only a second pass collapses.  The amended statement: on inputs made of
allowed characters with no backtick, no `<` and no `http` substring — so
steps (1), (2) and (4)–(6) do nothing — the sanitizer is idempotent. -/

/-- The list has no leading whitespace character. -/
def headNotWs : List Char → Prop
  | [] => True
  | c :: _ => isJsWs c = false

/-- No two adjacent whitespace characters. -/
def noTwoWs : List Char → Prop
  | [] => True
  | [_] => True
  | a :: b :: rest => ¬(isJsWs a = true ∧ isJsWs b = true) ∧ noTwoWs (b :: rest)

/-- The list has no trailing whitespace character. -/
def lastNotWs : List Char → Prop
  | [] => True
  | [c] => isJsWs c = false
  | _ :: b :: rest => lastNotWs (b :: rest)

lemma noTwoWs_tail (a : Char) (rest : List Char) (h : noTwoWs (a :: rest)) :
    noTwoWs rest := by
  cases rest with
  | nil => trivial
  | cons b r => exact h.2

/-- Step (1) is the identity on control-free text. -/
lemma filter_ctrl_id (l : List Char) (h : ∀ c ∈ l, isCtrlRemoved c = false) :
    l.filter (fun c => !isCtrlRemoved c) = l := by
  induction l with
  | nil => rfl
  | cons c rest ih =>
    have hc := h c (List.mem_cons_self c rest)
    simp [List.filter_cons, hc, ih (fun d hd => h d (List.mem_cons_of_mem c hd))]

/-- Step (2) is the identity on text over the allowed character set. -/
lemma map_allowed_id (l : List Char) (h : ∀ c ∈ l, isAllowedChar c = true) :
    l.map (fun c => if isAllowedChar c then c else ' ') = l := by
  induction l with
  | nil => rfl
  | cons c rest ih =>
    have hc := h c (List.mem_cons_self c rest)
    simp [hc, ih (fun d hd => h d (List.mem_cons_of_mem c hd))]

/-- The allowed set contains no removed control character. -/
lemma allowed_not_ctrl (c : Char) (h : isAllowedChar c = true) : isCtrlRemoved c = false := by
  rw [isAllowedChar, decide_eq_true_iff] at h
  rw [isCtrlRemoved, decide_eq_false_iff_not]
  omega

/-- Characters of the collapsed text come from the input or are the space. -/
lemma collapseAux_mem (l : List Char) : ∀ (b : Bool) (c : Char),
    c ∈ collapseAux l b → c ∈ l ∨ c = ' ' := by
  induction l with
  | nil => intro b c hc; simp [collapseAux] at hc
  | cons a rest ih =>
    intro b c hc
    by_cases ha : isJsWs a
    · by_cases hb : b = true
      · subst hb
        simp only [collapseAux, ha, if_true] at hc
        rcases ih true c hc with h | h
        · exact Or.inl (List.mem_cons_of_mem a h)
        · exact Or.inr h
      · have hb' : b = false := by revert hb; cases b <;> simp
        subst hb'
        simp only [collapseAux, ha, if_true, Bool.false_eq_true, if_false,
          List.mem_cons] at hc
        rcases hc with rfl | hc
        · exact Or.inr rfl
        · rcases ih true c hc with h | h
          · exact Or.inl (List.mem_cons_of_mem a h)
          · exact Or.inr h
    · simp only [collapseAux, ha, Bool.false_eq_true, if_false, List.mem_cons] at hc
      rcases hc with rfl | hc
      · exact Or.inl (List.mem_cons_self c rest)
      · rcases ih false c hc with h | h
        · exact Or.inl (List.mem_cons_of_mem a h)
        · exact Or.inr h

/-- Every whitespace character of the collapsed text is the plain space. -/
lemma collapseAux_ws_space (l : List Char) : ∀ (b : Bool) (c : Char),
    c ∈ collapseAux l b → isJsWs c = true → c = ' ' := by
  induction l with
  | nil => intro b c hc; simp [collapseAux] at hc
  | cons a rest ih =>
    intro b c hc hw
    by_cases ha : isJsWs a
    · by_cases hb : b = true
      · subst hb
        simp only [collapseAux, ha, if_true] at hc
        exact ih true c hc hw
      · have hb' : b = false := by revert hb; cases b <;> simp
        subst hb'
        simp only [collapseAux, ha, if_true, Bool.false_eq_true, if_false,
          List.mem_cons] at hc
        rcases hc with rfl | hc
        · rfl
        · exact ih true c hc hw
    · simp only [collapseAux, ha, Bool.false_eq_true, if_false, List.mem_cons] at hc
      rcases hc with rfl | hc
      · exact absurd hw (by simp [ha])
      · exact ih false c hc hw

/-- The collapsed text has no two adjacent whitespace characters, and with
the in-run flag set it starts with a non-whitespace character. -/
lemma collapseAux_norm (l : List Char) : ∀ b : Bool,
    noTwoWs (collapseAux l b) ∧ (b = true → headNotWs (collapseAux l b)) := by
  induction l with
  | nil => intro b; exact ⟨trivial, fun _ => trivial⟩
  | cons a rest ih =>
    intro b
    by_cases ha : isJsWs a
    · by_cases hb : b = true
      · subst hb
        simpa [collapseAux, ha] using ih true
      · have hb' : b = false := by revert hb; cases b <;> simp
        subst hb'
        have ihr := ih true
        simp only [collapseAux, ha, if_true, Bool.false_eq_true, if_false]
        constructor
        · cases hM : collapseAux rest true with
          | nil => trivial
          | cons d M =>
            refine ⟨?_, ?_⟩
            · rintro ⟨_, hd⟩
              have h2 := ihr.2 rfl
              rw [hM] at h2
              have hdf : isJsWs d = false := h2
              rw [hdf] at hd
              exact Bool.noConfusion hd
            · have h1 := ihr.1
              rw [hM] at h1
              exact h1
        · intro h
          exact absurd h (by simp)
    · have ihr := ih false
      simp only [collapseAux, ha, if_false]
      constructor
      · cases hM : collapseAux rest false with
        | nil => trivial
        | cons d M =>
          refine ⟨?_, ?_⟩
          · rintro ⟨haw, _⟩
            exact absurd haw (by simp [ha])
          · have h1 := ihr.1
            rw [hM] at h1
            exact h1
      · intro _
        exact (by simpa using ha : isJsWs a = false)

/-- With a non-whitespace head the in-run flag is irrelevant. -/
lemma collapseAux_true_eq_false (l : List Char) (h : headNotWs l) :
    collapseAux l true = collapseAux l false := by
  cases l with
  | nil => rfl
  | cons c rest =>
    have hc : isJsWs c = false := h
    simp [collapseAux, hc]

/-- Collapsing is the identity on text whose whitespace is single plain
spaces. -/
lemma collapseWs_fixed (l : List Char) (hws : ∀ c ∈ l, isJsWs c = true → c = ' ')
    (hn : noTwoWs l) : collapseWs l = l := by
  unfold collapseWs
  induction l with
  | nil => rfl
  | cons a rest ih =>
    by_cases ha : isJsWs a
    · have haSp : a = ' ' := hws a (List.mem_cons_self a rest) ha
      have hrest : headNotWs rest := by
        cases rest with
        | nil => trivial
        | cons d r =>
          cases hd : isJsWs d with
          | false => exact hd
          | true => exact absurd ⟨ha, hd⟩ hn.1
      have hct : collapseAux rest true = rest := by
        rw [collapseAux_true_eq_false rest hrest]
        exact ih (fun d hd hw => hws d (List.mem_cons_of_mem a hd) hw) (noTwoWs_tail a rest hn)
      calc collapseAux (a :: rest) false
          = ' ' :: collapseAux rest true := by simp [collapseAux, ha]
        _ = ' ' :: rest := by rw [hct]
        _ = a :: rest := by rw [haSp]
    · have : collapseAux rest false = rest :=
        ih (fun d hd hw => hws d (List.mem_cons_of_mem a hd) hw) (noTwoWs_tail a rest hn)
      simp [collapseAux, ha, this]

/-- A fully non-whitespace pattern that begins the collapsed text also
begins the original text. -/
lemma begWith_collapse : ∀ (l pat : List Char), (∀ c ∈ pat, isJsWs c = false) →
    begWith pat (collapseAux l false) = true → begWith pat l = true := by
  intro l
  induction l with
  | nil =>
    intro pat _ h
    cases pat with
    | nil => rfl
    | cons p ps => simp [collapseAux, begWith] at h
  | cons a rest ih =>
    intro pat hpat h
    cases pat with
    | nil => rfl
    | cons p ps =>
      by_cases ha : isJsWs a = true
      · simp only [collapseAux, ha, if_true, Bool.false_eq_true, if_false, begWith,
          Bool.and_eq_true, decide_eq_true_eq] at h
        have hp := hpat p (List.mem_cons_self p ps)
        rw [h.1] at hp
        exact absurd hp (by decide)
      · simp only [collapseAux, ha, Bool.false_eq_true, if_false, begWith,
          Bool.and_eq_true, decide_eq_true_eq] at h
        have := ih ps (fun c hc => hpat c (List.mem_cons_of_mem p hc)) h.2
        simp [begWith, h.1, this]

/-- A fully non-whitespace substring of the collapsed text is a substring of
the original text. -/
lemma hasSub_collapse : ∀ (l : List Char) (b : Bool) (pat : List Char), pat ≠ [] →
    (∀ c ∈ pat, isJsWs c = false) →
    hasSub pat (collapseAux l b) = true → hasSub pat l = true := by
  intro l
  induction l with
  | nil =>
    intro b pat hne _ h
    cases pat with
    | nil => exact absurd rfl hne
    | cons p ps => simp [collapseAux, hasSub] at h
  | cons a rest ih =>
    intro b pat hne hpat h
    by_cases ha : isJsWs a = true
    · by_cases hb : b = true
      · subst hb
        simp only [collapseAux, ha, if_true] at h
        have := ih true pat hne hpat h
        simp [hasSub, this]
      · have hb' : b = false := by revert hb; cases b <;> simp
        subst hb'
        simp only [collapseAux, ha, if_true, Bool.false_eq_true, if_false] at h
        rw [show hasSub pat (' ' :: collapseAux rest true) =
          (begWith pat (' ' :: collapseAux rest true) || hasSub pat (collapseAux rest true))
          from rfl] at h
        rcases Bool.or_eq_true_iff.mp h with hbg | hsb
        · cases pat with
          | nil => exact absurd rfl hne
          | cons p ps =>
            simp only [begWith, Bool.and_eq_true, decide_eq_true_eq] at hbg
            have hp := hpat p (List.mem_cons_self p ps)
            rw [hbg.1] at hp
            exact absurd hp (by decide)
        · have := ih true pat hne hpat hsb
          simp [hasSub, this]
    · have hform : collapseAux (a :: rest) b = a :: collapseAux rest false := by
        simp [collapseAux, ha]
      rw [hform] at h
      rw [show hasSub pat (a :: collapseAux rest false) =
        (begWith pat (a :: collapseAux rest false) || hasSub pat (collapseAux rest false))
        from rfl] at h
      rcases Bool.or_eq_true_iff.mp h with hbg | hsb
      · have hbg' : begWith pat (collapseAux (a :: rest) false) = true := by
          rw [show collapseAux (a :: rest) false = a :: collapseAux rest false by
            simp [collapseAux, ha]]
          exact hbg
        have := begWith_collapse (a :: rest) pat hpat hbg'
        simp [hasSub, this]
      · have := ih false pat hne hpat hsb
        simp [hasSub, this]

/-- Dropping a prefix preserves membership. -/
lemma mem_dropWhile (p : Char → Bool) : ∀ (l : List Char) (c : Char),
    c ∈ l.dropWhile p → c ∈ l := by
  intro l
  induction l with
  | nil => intro c h; simpa using h
  | cons a rest ih =>
    intro c h
    by_cases ha : p a = true
    · rw [List.dropWhile_cons, if_pos ha] at h
      exact List.mem_cons_of_mem a (ih c h)
    · rw [List.dropWhile_cons, if_neg ha] at h
      exact h

/-- `dropTrailingWs l` is a prefix of `l`. -/
lemma dropTrailingWs_prefix : ∀ l : List Char, ∃ t, l = dropTrailingWs l ++ t := by
  intro l
  induction l with
  | nil => exact ⟨[], rfl⟩
  | cons c rest ih =>
    rcases ih with ⟨t, ht⟩
    by_cases h : ((dropTrailingWs rest).isEmpty && isJsWs c) = true
    · refine ⟨c :: rest, ?_⟩
      rw [show dropTrailingWs (c :: rest) = [] by simp [dropTrailingWs, h]]
      rfl
    · refine ⟨t, ?_⟩
      rw [show dropTrailingWs (c :: rest) = c :: dropTrailingWs rest by
        simp only [dropTrailingWs]; rw [if_neg h]]
      simpa using ht

/-- Removing trailing whitespace preserves membership. -/
lemma mem_dropTrailingWs (l : List Char) (c : Char) (h : c ∈ dropTrailingWs l) : c ∈ l := by
  rcases dropTrailingWs_prefix l with ⟨t, ht⟩
  rw [ht]
  exact List.mem_append_left t h

/-- Trimming preserves membership. -/
lemma mem_trimWs (l : List Char) (c : Char) (h : c ∈ trimWs l) : c ∈ l :=
  mem_dropWhile isJsWs l c (mem_dropTrailingWs (l.dropWhile isJsWs) c h)

/-- A pattern beginning `a` begins `a ++ b`. -/
lemma begWith_append_left : ∀ (pat a b : List Char),
    begWith pat a = true → begWith pat (a ++ b) = true := by
  intro pat
  induction pat with
  | nil => intro a b _; rfl
  | cons p ps ih =>
    intro a b h
    cases a with
    | nil => simp [begWith] at h
    | cons x xs =>
      simp only [begWith, Bool.and_eq_true, decide_eq_true_eq] at h
      simp only [List.cons_append, begWith, Bool.and_eq_true, decide_eq_true_eq]
      exact ⟨h.1, ih xs b h.2⟩

/-- A substring of `a` is a substring of `a ++ b`. -/
lemma hasSub_append_left : ∀ (a : List Char) (pat b : List Char),
    hasSub pat a = true → hasSub pat (a ++ b) = true := by
  intro a
  induction a with
  | nil =>
    intro pat b h
    have hpat : pat = [] := by
      cases pat with
      | nil => rfl
      | cons p ps => simp [hasSub, List.isEmpty] at h
    subst hpat
    cases b with
    | nil => rfl
    | cons x xs => simp [hasSub, begWith]
  | cons x xs ih =>
    intro pat b h
    rw [show hasSub pat (x :: xs) = (begWith pat (x :: xs) || hasSub pat xs) from rfl] at h
    rcases Bool.or_eq_true_iff.mp h with hbg | hsb
    · have := begWith_append_left pat (x :: xs) b hbg
      rw [List.cons_append] at this ⊢
      rw [show hasSub pat (x :: (xs ++ b)) =
        (begWith pat (x :: (xs ++ b)) || hasSub pat (xs ++ b)) from rfl]
      simp [this]
    · have := ih pat b hsb
      rw [List.cons_append]
      rw [show hasSub pat (x :: (xs ++ b)) =
        (begWith pat (x :: (xs ++ b)) || hasSub pat (xs ++ b)) from rfl]
      simp [this]

/-- A substring of a dropped-prefix list is a substring of the list. -/
lemma hasSub_dropWhile (p : Char → Bool) : ∀ (l pat : List Char),
    hasSub pat (l.dropWhile p) = true → hasSub pat l = true := by
  intro l
  induction l with
  | nil => intro pat h; simpa using h
  | cons a rest ih =>
    intro pat h
    by_cases ha : p a = true
    · rw [List.dropWhile_cons, if_pos ha] at h
      have := ih pat h
      rw [show hasSub pat (a :: rest) = (begWith pat (a :: rest) || hasSub pat rest) from rfl]
      simp [this]
    · rw [List.dropWhile_cons, if_neg ha] at h
      exact h

/-- A substring of the trimmed text is a substring of the text. -/
lemma hasSub_trim (l pat : List Char) (h : hasSub pat (trimWs l) = true) :
    hasSub pat l = true := by
  rcases dropTrailingWs_prefix (l.dropWhile isJsWs) with ⟨t, ht⟩
  have h2 : hasSub pat (l.dropWhile isJsWs) = true := by
    rw [ht]
    exact hasSub_append_left (dropTrailingWs (l.dropWhile isJsWs)) pat t h
  exact hasSub_dropWhile isJsWs l pat h2

/-- The dropped-prefix list starts with a non-whitespace character. -/
lemma headNotWs_dropWhile (l : List Char) : headNotWs (l.dropWhile isJsWs) := by
  induction l with
  | nil => trivial
  | cons a rest ih =>
    by_cases ha : isJsWs a = true
    · rw [List.dropWhile_cons, if_pos ha]
      exact ih
    · rw [List.dropWhile_cons, if_neg ha]
      exact (by simpa using ha : isJsWs a = false)

/-- `dropTrailingWs` of a cons is empty or keeps the same head. -/
lemma dropTrailingWs_head (c : Char) (rest : List Char) :
    dropTrailingWs (c :: rest) = [] ∨
    ∃ r, dropTrailingWs (c :: rest) = c :: r := by
  by_cases h : ((dropTrailingWs rest).isEmpty && isJsWs c) = true
  · left; simp [dropTrailingWs, h]
  · right
    refine ⟨dropTrailingWs rest, ?_⟩
    simp only [dropTrailingWs]; rw [if_neg h]

/-- Removing trailing whitespace keeps a non-whitespace head. -/
lemma headNotWs_dropTrailingWs (l : List Char) (h : headNotWs l) :
    headNotWs (dropTrailingWs l) := by
  cases l with
  | nil => trivial
  | cons c rest =>
    rcases dropTrailingWs_head c rest with he | ⟨r, hr⟩
    · rw [he]; trivial
    · rw [hr]; exact h

/-- The result of `dropTrailingWs` has no trailing whitespace. -/
lemma lastNotWs_dropTrailingWs : ∀ l : List Char, lastNotWs (dropTrailingWs l) := by
  intro l
  induction l with
  | nil => trivial
  | cons c rest ih =>
    by_cases h : ((dropTrailingWs rest).isEmpty && isJsWs c) = true
    · rw [show dropTrailingWs (c :: rest) = [] by simp [dropTrailingWs, h]]
      trivial
    · rw [show dropTrailingWs (c :: rest) = c :: dropTrailingWs rest by
        simp only [dropTrailingWs]; rw [if_neg h]]
      cases hr : dropTrailingWs rest with
      | nil =>
        show isJsWs c = false
        cases hB : isJsWs c with
        | false => rfl
        | true =>
          exfalso
          apply h
          simp [hr, hB]
      | cons d r =>
        rw [hr] at ih
        exact ih

/-- Dropping the whitespace prefix of a list with a non-whitespace head does
nothing. -/
lemma dropWhile_id_of_headNotWs (l : List Char) (h : headNotWs l) :
    l.dropWhile isJsWs = l := by
  cases l with
  | nil => rfl
  | cons c rest =>
    have hc : isJsWs c = false := h
    rw [List.dropWhile_cons, if_neg (by simp [hc])]

/-- Removing trailing whitespace from a list with no trailing whitespace does
nothing. -/
lemma dropTrailingWs_id_of_lastNotWs : ∀ l : List Char, lastNotWs l → dropTrailingWs l = l := by
  intro l
  induction l with
  | nil => intro _; rfl
  | cons c rest ih =>
    intro h
    cases rest with
    | nil =>
      have hc : isJsWs c = false := h
      simp [dropTrailingWs, List.isEmpty, hc]
    | cons d r =>
      have h' : lastNotWs (d :: r) := h
      have hdr := ih h'
      have hne : (dropTrailingWs (d :: r)).isEmpty = false := by
        rw [hdr]; rfl
      rw [show dropTrailingWs (c :: d :: r) =
        if (dropTrailingWs (d :: r)).isEmpty && isJsWs c then []
        else c :: dropTrailingWs (d :: r) from rfl]
      rw [hne]
      simp [hdr]

/-- Trimming a list with no leading and no trailing whitespace does nothing. -/
lemma trimWs_id (l : List Char) (h1 : headNotWs l) (h2 : lastNotWs l) : trimWs l = l := by
  unfold trimWs
  rw [dropWhile_id_of_headNotWs l h1, dropTrailingWs_id_of_lastNotWs l h2]

/-- The trimmed text has no leading whitespace. -/
lemma headNotWs_trimWs (l : List Char) : headNotWs (trimWs l) :=
  headNotWs_dropTrailingWs (l.dropWhile isJsWs) (headNotWs_dropWhile l)

/-- The trimmed text has no trailing whitespace. -/
lemma lastNotWs_trimWs (l : List Char) : lastNotWs (trimWs l) :=
  lastNotWs_dropTrailingWs (l.dropWhile isJsWs)

/-- Dropping a prefix preserves the no-adjacent-whitespace property. -/
lemma noTwoWs_dropWhile (p : Char → Bool) : ∀ l : List Char,
    noTwoWs l → noTwoWs (l.dropWhile p) := by
  intro l
  induction l with
  | nil => intro _; trivial
  | cons a rest ih =>
    intro h
    by_cases ha : p a = true
    · rw [List.dropWhile_cons, if_pos ha]
      exact ih (noTwoWs_tail a rest h)
    · rw [List.dropWhile_cons, if_neg ha]
      exact h

/-- Removing trailing whitespace preserves the no-adjacent-whitespace
property. -/
lemma noTwoWs_dropTrailingWs : ∀ l : List Char, noTwoWs l → noTwoWs (dropTrailingWs l) := by
  intro l
  induction l with
  | nil => intro _; trivial
  | cons c rest ih =>
    intro h
    by_cases hcnd : ((dropTrailingWs rest).isEmpty && isJsWs c) = true
    · rw [show dropTrailingWs (c :: rest) = [] by simp [dropTrailingWs, hcnd]]
      trivial
    · rw [show dropTrailingWs (c :: rest) = c :: dropTrailingWs rest by
        simp only [dropTrailingWs]; rw [if_neg hcnd]]
      cases hr : dropTrailingWs rest with
      | nil => trivial
      | cons d r =>
        cases rest with
        | nil => simp [dropTrailingWs] at hr
        | cons e rest2 =>
          rcases dropTrailingWs_head e rest2 with he | ⟨r2, hr2⟩
          · rw [he] at hr; exact List.noConfusion hr
          · rw [hr2] at hr
            injection hr with h1 h2
            refine ⟨?_, ?_⟩
            · rintro ⟨hwc, hwd⟩
              rw [← h1] at hwd
              exact h.1 ⟨hwc, hwd⟩
            · have hthis := ih (noTwoWs_tail c (e :: rest2) h)
              rw [hr2, h1, h2] at hthis
              exact hthis

/-- Without a backtick there is no fence. -/
lemma splitFirstFence_none : ∀ l : List Char, (∀ c ∈ l, isTick c = false) →
    splitFirstFence l = none := by
  intro l
  induction l with
  | nil => intro _; rfl
  | cons a tail ih =>
    intro h
    cases tail with
    | nil => rfl
    | cons b tail2 =>
      cases tail2 with
      | nil => rfl
      | cons c rest =>
        have ha : isTick a = false := h a (List.mem_cons_self a _)
        have ih' := ih (fun d hd => h d (List.mem_cons_of_mem a hd))
        simp [splitFirstFence, ha, ih']

/-- Fence removal is the identity on backtick-free text. -/
lemma removeFencesAux_id (fuel : Nat) (l : List Char) (h : splitFirstFence l = none) :
    removeFencesAux fuel l = l := by
  cases fuel with
  | zero => rfl
  | succ f => simp [removeFencesAux, h]

/-- `removeFences` does nothing to backtick-free text. -/
lemma removeFences_id (l : List Char) (h : ∀ c ∈ l, isTick c = false) :
    removeFences l = l :=
  removeFencesAux_id l.length l (splitFirstFence_none l h)

/-- Without the target character there is no split. -/
lemma splitAtChar_none (t : Char) : ∀ l : List Char, (∀ c ∈ l, c ≠ t) →
    splitAtChar t l = none := by
  intro l
  induction l with
  | nil => intro _; rfl
  | cons a rest ih =>
    intro h
    have ha : a ≠ t := h a (List.mem_cons_self a rest)
    have ih' := ih (fun d hd => h d (List.mem_cons_of_mem a hd))
    simp [splitAtChar, ha, ih']

/-- Tag removal is the identity when no `<` occurs. -/
lemma removeTagsAux_id (fuel : Nat) (l : List Char) (h : splitAtChar '<' l = none) :
    removeTagsAux fuel l = l := by
  cases fuel with
  | zero => rfl
  | succ f => simp [removeTagsAux, h]

/-- `removeTags` does nothing when no `<` occurs. -/
lemma removeTags_id (l : List Char) (h : ∀ c ∈ l, c ≠ '<') : removeTags l = l :=
  removeTagsAux_id l.length l (splitAtChar_none '<' l h)

/-- A longer pattern beginning the text implies its base beginning it. -/
lemma begWith_extend : ∀ (p q l : List Char), begWith (p ++ q) l = true →
    begWith p l = true := by
  intro p
  induction p with
  | nil => intro q l _; rfl
  | cons x ps ih =>
    intro q l h
    cases l with
    | nil => simp [begWith] at h
    | cons c cs =>
      rw [List.cons_append] at h
      simp only [begWith, Bool.and_eq_true, decide_eq_true_eq] at h ⊢
      exact ⟨h.1, ih q cs h.2⟩

/-- Without an `http` occurrence at the head there is no scheme match. -/
lemma isHttpAt_none (l : List Char) (h : begWith httpPat l = false) : isHttpAt l = none := by
  have hS : begWith httpPrefixS l = false := by
    cases hS : begWith httpPrefixS l with
    | false => rfl
    | true =>
      have hb : begWith httpPat l = true := begWith_extend httpPat ['s', ':', '/', '/'] l hS
      rw [hb] at h
      exact Bool.noConfusion h
  have hP : begWith httpPrefixP l = false := by
    cases hP : begWith httpPrefixP l with
    | false => rfl
    | true =>
      have hb : begWith httpPat l = true := begWith_extend httpPat [':', '/', '/'] l hP
      rw [hb] at h
      exact Bool.noConfusion h
  simp [isHttpAt, hS, hP]

/-- URL replacement is the identity on text with no `http` substring. -/
lemma replaceUrlsAux_id : ∀ (fuel : Nat) (l : List Char),
    hasSub httpPat l = false → replaceUrlsAux fuel l = l := by
  intro fuel
  induction fuel with
  | zero => intro l _; rfl
  | succ f ih =>
    intro l h
    cases l with
    | nil => rfl
    | cons c rest =>
      rw [show hasSub httpPat (c :: rest) =
        (begWith httpPat (c :: rest) || hasSub httpPat rest) from rfl] at h
      rcases Bool.or_eq_false_iff.mp h with ⟨hbg, hsb⟩
      have hnone := isHttpAt_none (c :: rest) hbg
      simp [replaceUrlsAux, hnone, ih rest hsb]

/-- `replaceUrls` does nothing to text with no `http` substring. -/
lemma replaceUrls_id (l : List Char) (h : hasSub httpPat l = false) : replaceUrls l = l :=
  replaceUrlsAux_id l.length l h

set_option maxRecDepth 20000 in
/-- C7 amended: the sanitizer is **not** idempotent in general (see the
counterexample: a deletion step running after whitespace collapsing can join
two spaces), but it is idempotent on every string over the allowed character
set containing no backtick, no `<`, and no `http` substring — inputs on
which the deletion steps cannot fire. -/
theorem c7_sanitizer_amended (s : String)
    (hchar : ∀ c ∈ s.data, isAllowedChar c = true ∧ isTick c = false ∧ c ≠ '<')
    (hhttp : hasSub httpPat s.data = false) :
    sanitizeModelOutput (sanitizeModelOutput s) = sanitizeModelOutput s := by
  by_cases hs : s = ""
  · subst hs
    decide
  · have hallow : ∀ c ∈ s.data, isAllowedChar c = true := fun c hc => (hchar c hc).1
    have h1 : s.data.filter (fun c => !isCtrlRemoved c) = s.data :=
      filter_ctrl_id s.data (fun c hc => allowed_not_ctrl c (hallow c hc))
    have h2 : s.data.map (fun c => if isAllowedChar c then c else ' ') = s.data :=
      map_allowed_id s.data hallow
    have hmem : ∀ c ∈ collapseWs s.data, c ∈ s.data ∨ c = ' ' :=
      fun c hc => collapseAux_mem s.data false c hc
    have hmtick : ∀ c ∈ collapseWs s.data, isTick c = false := by
      intro c hc
      rcases hmem c hc with hcl | rfl
      · exact (hchar c hcl).2.1
      · decide
    have hmlt : ∀ c ∈ collapseWs s.data, c ≠ '<' := by
      intro c hc
      rcases hmem c hc with hcl | rfl
      · exact (hchar c hcl).2.2
      · decide
    have hmhttp : hasSub httpPat (collapseWs s.data) = false := by
      cases hx : hasSub httpPat (collapseWs s.data) with
      | false => rfl
      | true =>
        have hh := hasSub_collapse s.data false httpPat (by decide) (by decide) hx
        rw [hh] at hhttp
        exact Bool.noConfusion hhttp
    have hsteps : sanitizeSteps s.data = trimWs (collapseWs s.data) := by
      show trimWs (replaceUrls (removeTags (removeFences (collapseWs
        ((s.data.filter (fun c => !isCtrlRemoved c)).map
          (fun c => if isAllowedChar c then c else ' ')))))) =
        trimWs (collapseWs s.data)
      rw [h1, h2, removeFences_id _ hmtick, removeTags_id _ hmlt, replaceUrls_id _ hmhttp]
    have hpass1 : sanitizeModelOutput s =
        if (trimWs (collapseWs s.data)).isEmpty then apologyFallback
        else String.mk (trimWs (collapseWs s.data)) := by
      show (if s = "" then errNoResponse else
        if (sanitizeSteps s.data).isEmpty then apologyFallback
        else String.mk (sanitizeSteps s.data)) = _
      rw [if_neg hs, hsteps]
    by_cases ht : (trimWs (collapseWs s.data)).isEmpty = true
    · rw [hpass1, if_pos ht]
      decide
    · rw [hpass1, if_neg ht]
      have htne : trimWs (collapseWs s.data) ≠ [] := by
        intro he
        rw [he] at ht
        exact ht rfl
      have hmkne : String.mk (trimWs (collapseWs s.data)) ≠ "" := by
        intro he
        exact htne (congrArg String.data he)
      have htm : ∀ c ∈ trimWs (collapseWs s.data), c ∈ collapseWs s.data :=
        fun c hc => mem_trimWs (collapseWs s.data) c hc
      have hctrl_t : ∀ c ∈ trimWs (collapseWs s.data), isCtrlRemoved c = false := by
        intro c hc
        rcases hmem c (htm c hc) with hcl | rfl
        · exact allowed_not_ctrl c (hallow c hcl)
        · decide
      have hallow_t : ∀ c ∈ trimWs (collapseWs s.data), isAllowedChar c = true := by
        intro c hc
        rcases hmem c (htm c hc) with hcl | rfl
        · exact hallow c hcl
        · decide
      have hws_t : ∀ c ∈ trimWs (collapseWs s.data), isJsWs c = true → c = ' ' :=
        fun c hc hw => collapseAux_ws_space s.data false c (htm c hc) hw
      have hnoTwo_t : noTwoWs (trimWs (collapseWs s.data)) :=
        noTwoWs_dropTrailingWs _ (noTwoWs_dropWhile isJsWs _ (collapseAux_norm s.data false).1)
      have hhttp_t : hasSub httpPat (trimWs (collapseWs s.data)) = false := by
        cases hx : hasSub httpPat (trimWs (collapseWs s.data)) with
        | false => rfl
        | true =>
          have hh := hasSub_trim (collapseWs s.data) httpPat hx
          rw [hh] at hmhttp
          exact Bool.noConfusion hmhttp
      have hsteps_t : sanitizeSteps (trimWs (collapseWs s.data)) =
          trimWs (collapseWs s.data) := by
        show trimWs (replaceUrls (removeTags (removeFences (collapseWs
          (((trimWs (collapseWs s.data)).filter (fun c => !isCtrlRemoved c)).map
            (fun c => if isAllowedChar c then c else ' ')))))) = _
        rw [filter_ctrl_id _ hctrl_t, map_allowed_id _ hallow_t,
            collapseWs_fixed _ hws_t hnoTwo_t,
            removeFences_id _ (fun c hc => hmtick c (htm c hc)),
            removeTags_id _ (fun c hc => hmlt c (htm c hc)),
            replaceUrls_id _ hhttp_t,
            trimWs_id _ (headNotWs_trimWs _) (lastNotWs_trimWs _)]
      show (if String.mk (trimWs (collapseWs s.data)) = "" then errNoResponse else
        if (sanitizeSteps (String.mk (trimWs (collapseWs s.data))).data).isEmpty
        then apologyFallback
        else String.mk (sanitizeSteps (String.mk (trimWs (collapseWs s.data))).data)) = _
      rw [if_neg hmkne]
      have hdata : (String.mk (trimWs (collapseWs s.data))).data =
          trimWs (collapseWs s.data) := rfl
      rw [hdata, hsteps_t, if_neg ht]

/-- Witness for the amended C7 at the concrete input `"hello world"`. -/
theorem c7_sanitizer_amended_witness :
    (∀ c ∈ ("hello world" : String).data,
        isAllowedChar c = true ∧ isTick c = false ∧ c ≠ '<') ∧
    hasSub httpPat ("hello world" : String).data = false ∧
    sanitizeModelOutput (sanitizeModelOutput "hello world") =
      sanitizeModelOutput "hello world" :=
  ⟨by decide, by decide, c7_sanitizer_amended "hello world" (by decide) (by decide)⟩

/-! ## `InferenceEngine.generateText` (`inferenceEngine.cjs`)

`generateText` first consults `isModelLoaded()`; when it reports false the
request fails with 'No model loaded' before the prompt is even read — no
prompt formatting, no native `generate` call, hence no tokenization (the
tokenizer runs inside the native `Generate`).  The returned list records the
formatted prompt of every native `generate` invocation. -/

/-- JS `String.replace` with a string pattern: replace only the first
occurrence. -/
def replaceFirstL (pat repl : List Char) : List Char → List Char
  | [] => []
  | c :: rest =>
    if begWith pat (c :: rest) then repl ++ (c :: rest).drop pat.length
    else c :: replaceFirstL pat repl rest

/-- JS `String.prototype.trim`. -/
def strTrim (s : String) : String := String.mk (trimWs s.data)

/-- The per-model generation defaults stored by `loadModel`
(`this.modelSettings`). -/
structure GenSettings where
  promptTemplate : String
  maxLength : Nat
  temperature : ℚ
  topP : ℚ

/-- Outcome of one call into the native `generate`. -/
inductive NativeGen where
  | threw (msg : String)
  | returned (r : String)

/-- Result shape of `generateText`. -/
structure TextGenResult where
  success : Bool
  error : Option String
  fullText : Option String
  response : Option String
deriving DecidableEq

/-- Prompt formatting: substitute the trimmed user text into the template's
`\x7bprompt\x7d` slot, or use the default `USER:`/`ASSISTANT:` template. -/
def formatPrompt (settings : Option GenSettings) (prompt : String) : String :=
  match settings with
  | some st =>
    String.mk (replaceFirstL "\x7bprompt\x7d".data (strTrim prompt).data st.promptTemplate.data)
  | none => "USER: " ++ strTrim prompt ++ "\nASSISTANT:"

/-- `InferenceEngine.generateText`: the result together with the list of
prompts handed to the native `generate` primitive (in order). -/
def generateText (isLoaded : Bool) (settings : Option GenSettings) (prompt : Option String)
    (native : String → NativeGen) : TextGenResult × List String :=
  if isLoaded = false then (⟨false, some "No model loaded", none, none⟩, [])
  else
    match prompt with
    | none => (⟨false, some "Prompt is required", none, none⟩, [])
    | some p =>
      if p = "" then (⟨false, some "Prompt is required", none, none⟩, [])
      else
        let formatted := formatPrompt settings p
        match native formatted with
        | .threw msg =>
          (⟨false, some ("Generation failed: " ++ msg), none, none⟩, [formatted])
        | .returned r =>
          if r = "" then
            (⟨false, some "Failed to generate response", none, none⟩, [formatted])
          else
            let assistant := strTrim (String.mk (r.data.drop formatted.data.length))
            (⟨true, none, some r, some (sanitizeModelOutput assistant)⟩, [formatted])

/-- C8: with no model loaded, `generateText` fails with the no-model-loaded
error and makes no call into the native generation primitive (so nothing is
tokenized), for every settings/prompt/native behaviour. -/
theorem c8_generate_requires_model (settings : Option GenSettings) (prompt : Option String)
    (native : String → NativeGen) :
    generateText false settings prompt native =
      (⟨false, some "No model loaded", none, none⟩, []) := rfl
